import Mathlib

/-!
Verification development for the CodeCity execution/serialization engine.

The serializer (`src/server/serialize.js`) and the eval-able-source dumper
(`Dumper.prototype.dumpBinding`) are embedded directly from the source.
The interpreter core (state-stack evaluator, scheduler, timer subsystem,
blocking bridge) is not part of the available sources — only its tests and
callers are — so those components are modelled from the specification text
(each such definition carries a `Modelled from the spec:` doc comment).
-/

set_option maxHeartbeats 1000000

/-! ## Guest-language numbers

`Modelled from the spec:` the interpreter source is not available; the spec
(§4.1) states that numeric semantics "follow the guest language's standard
abstract-operation algorithms exactly, including edge cases for NaN, signed
zero, and infinities" (ES5.1 §11.5–11.11).  We model an IEEE-754 double as a
tagged value: NaN, the two infinities, negative zero, or an exact rational
(`rat 0` is positive zero).  Finite overflow/underflow rounding is outside
the modelled fragment (all claim inputs are exact).
-/

inductive JSNum where
  | nan
  | posInf
  | negInf
  | negZero
  | rat (q : ℚ)
deriving DecidableEq, Repr

namespace JSNum

/-- Is the value one of the two zeroes? -/
def isZero : JSNum → Bool
  | negZero => true
  | rat q => q = 0
  | _ => false

/-- Is the value `+Infinity` or `-Infinity`? -/
def isInf : JSNum → Bool
  | posInf => true
  | negInf => true
  | _ => false

/-- Sign bit: true for negative values (including `-0` and `-Infinity`). -/
def negSign : JSNum → Bool
  | negInf => true
  | negZero => true
  | rat q => q < 0
  | _ => false

/-- Rational magnitude of a finite value (`-0` ↦ 0). -/
def toRat : JSNum → ℚ
  | rat q => q
  | _ => 0

/-- A zero with the given sign bit. -/
def zeroOfSign (neg : Bool) : JSNum := if neg then negZero else rat 0

/-- An infinity with the given sign bit. -/
def infOfSign (neg : Bool) : JSNum := if neg then negInf else posInf

/-- ES5.1 §11.5.1: the multiplication abstract operation. -/
def jsMul : JSNum → JSNum → JSNum
  | nan, _ => nan
  | _, nan => nan
  | a, b =>
    let s := a.negSign != b.negSign
    if a.isInf ∨ b.isInf then
      if a.isZero ∨ b.isZero then nan else infOfSign s
    else
      let p := a.toRat * b.toRat
      if p = 0 then zeroOfSign s else rat p

/-- ES5.1 §11.5.2: the division abstract operation. -/
def jsDiv : JSNum → JSNum → JSNum
  | nan, _ => nan
  | _, nan => nan
  | a, b =>
    let s := a.negSign != b.negSign
    if a.isInf then (if b.isInf then nan else infOfSign s)
    else if b.isInf then zeroOfSign s
    else if b.isZero then (if a.isZero then nan else infOfSign s)
    else
      let q := a.toRat / b.toRat
      if q = 0 then zeroOfSign s else rat q

/-- Truncation of a rational toward zero (`Int` division is T-division). -/
def ratTrunc (q : ℚ) : ℤ := q.num / (q.den : ℤ)

/-- ES5.1 §11.5.3: the remainder abstract operation (sign of the result
follows the dividend; an infinite divisor leaves the dividend unchanged). -/
def jsRem : JSNum → JSNum → JSNum
  | nan, _ => nan
  | _, nan => nan
  | a, b =>
    if a.isInf then nan
    else if b.isZero then nan
    else if b.isInf then a
    else if a.isZero then a
    else
      let q := a.toRat
      let d := b.toRat
      let r := q - d * (ratTrunc (q / d) : ℚ)
      if r = 0 then zeroOfSign a.negSign else rat r

/-- ES5.1 §9.5 ToInt32: NaN, infinities and `-0` map to 0; finite values are
truncated toward zero and wrapped into `[-2^31, 2^31)` (explicit `% 2^32`). -/
def toInt32 : JSNum → ℤ
  | rat q =>
      let m := (ratTrunc q) % (2 ^ 32)
      if m ≥ 2 ^ 31 then m - 2 ^ 32 else m
  | _ => 0

/-- ES5.1 §9.6 ToUint32: like ToInt32 but wrapped into `[0, 2^32)`. -/
def toUint32 : JSNum → ℤ
  | rat q => (ratTrunc q) % (2 ^ 32)
  | _ => 0

/-- Wrap an integer to the signed 32-bit range. -/
def int32Wrap (n : ℤ) : ℤ :=
  let m := n % (2 ^ 32)
  if m ≥ 2 ^ 31 then m - 2 ^ 32 else m

/-- ES5.1 §11.7.1: left shift.  The shift count is `ToUint32(b) mod 32`. -/
def jsShl (a b : JSNum) : JSNum :=
  let shift := ((toUint32 b) % 32).toNat
  rat (int32Wrap (toInt32 a * 2 ^ shift))

/-- ES5.1 §11.7.2: signed (sign-propagating) right shift: floor division. -/
def jsShr (a b : JSNum) : JSNum :=
  let shift := ((toUint32 b) % 32).toNat
  rat ((Int.fdiv (toInt32 a) (2 ^ shift) : ℤ) : ℚ)

/-- ES5.1 §11.7.3: unsigned (zero-filling) right shift. -/
def jsUshr (a b : JSNum) : JSNum :=
  let shift := ((toUint32 b) % 32).toNat
  rat (((toUint32 a) / 2 ^ shift : ℤ) : ℚ)

/-- ES5.1 §11.8.5: the abstract relational comparison on two numbers
(`a < b`); NaN on either side yields false (the algorithm's `undefined`). -/
def jsLt : JSNum → JSNum → Bool
  | nan, _ => false
  | _, nan => false
  | negInf, negInf => false
  | negInf, _ => true
  | _, negInf => false
  | posInf, _ => false
  | _, posInf => true
  | x, y => x.toRat < y.toRat

/-- ES5.1 §11.9.3/§11.9.6: numeric equality, shared by the abstract equality
and strict equality comparison algorithms once both operands are numbers.
NaN equals nothing (itself included); `-0` equals `+0`. -/
def jsNumEq : JSNum → JSNum → Bool
  | nan, _ => false
  | _, nan => false
  | posInf, posInf => true
  | negInf, negInf => true
  | posInf, _ => false
  | _, posInf => false
  | negInf, _ => false
  | _, negInf => false
  | x, y => x.toRat = y.toRat

end JSNum

/-- C4: binary-operator results match the guest language's abstract-operation
tables, including the listed `-0`, NaN, signed-infinity and shift edge cases,
and NaN is never `<`, `==` or `===` any value (itself included).
(The interpreter source is absent from src/, so the operators are modelled
from the spec; the listed values come from `testBinaryOp` in
`src/server/tests/interpreter_test.js`.) -/
theorem binaryOp_edge_cases :
    JSNum.jsMul .posInf .negInf = .negInf ∧
    JSNum.jsDiv (.rat 0) (.rat 0) = .nan ∧
    JSNum.jsDiv (.rat 1) .negZero = .negInf ∧
    JSNum.jsMul (.rat (-5)) (.rat 0) = .negZero ∧
    JSNum.jsRem .negZero (.rat 1) = .negZero ∧
    JSNum.jsShl (.rat 10) (.rat 33) = .rat 20 ∧
    JSNum.jsUshr (.rat (-11)) (.rat 0) = .rat 0xfffffff5 ∧
    (∀ v : JSNum, JSNum.jsLt .nan v = false ∧ JSNum.jsLt v .nan = false ∧
      JSNum.jsNumEq .nan v = false ∧ JSNum.jsNumEq v .nan = false) := by
  refine ⟨?_, ?_, ?_, ?_, ?_, ?_, ?_, ?_⟩
  · norm_num [JSNum.jsMul, JSNum.negSign, JSNum.isZero, JSNum.isInf,
      JSNum.toRat, JSNum.zeroOfSign, JSNum.infOfSign]
  · norm_num [JSNum.jsDiv, JSNum.negSign, JSNum.isZero, JSNum.isInf,
      JSNum.toRat, JSNum.zeroOfSign, JSNum.infOfSign]
  · norm_num [JSNum.jsDiv, JSNum.negSign, JSNum.isZero, JSNum.isInf,
      JSNum.toRat, JSNum.zeroOfSign, JSNum.infOfSign]
  · norm_num [JSNum.jsMul, JSNum.negSign, JSNum.isZero, JSNum.isInf,
      JSNum.toRat, JSNum.zeroOfSign, JSNum.infOfSign]
  · norm_num [JSNum.jsRem, JSNum.negSign, JSNum.isZero, JSNum.isInf,
      JSNum.toRat, JSNum.zeroOfSign, JSNum.infOfSign, JSNum.ratTrunc]
  · norm_num [JSNum.jsShl, JSNum.toInt32, JSNum.toUint32, JSNum.int32Wrap,
      JSNum.ratTrunc]
  · norm_num [JSNum.jsUshr, JSNum.toUint32, JSNum.ratTrunc]
  · intro v
    refine ⟨?_, ?_, ?_, ?_⟩ <;> cases v <;> simp [JSNum.jsLt, JSNum.jsNumEq]

/-! ## Switch statements with fall-through

`Modelled from the spec:` the state-stack evaluator's switch handling is not
in src/; per the spec (§4.1, §8) it follows the guest language's standard
CaseBlock evaluation (ES5.1 §12.11).  A case block with a `default` clause is
a list of clauses before the default, the default body, and the clauses after
the default.  Matching first scans the pre-default clauses in source order,
then the post-default clauses; execution falls through from the matched
clause to the end of the block (through the default when the match was before
it); if nothing matches, execution starts at the default.  Clause bodies in
the modelled program are `x += k` statements, represented by the added
constant. -/
structure SwitchBlock where
  preClauses : List (ℤ × List ℤ)
  defaultBody : List ℤ
  postClauses : List (ℤ × List ℤ)

/-- Run a list of `x += k` statements. -/
def runAdds (x : ℤ) (adds : List ℤ) : ℤ := adds.foldl (· + ·) x

/-- Run all bodies of a list of clauses in order. -/
def runClauses (x : ℤ) (cs : List (ℤ × List ℤ)) : ℤ :=
  cs.foldl (fun acc c => runAdds acc c.2) x

/-- ES5.1 §12.11 CaseBlock evaluation (fall-through, no `break`s). -/
def evalSwitch (sb : SwitchBlock) (disc : ℤ) (x : ℤ) : ℤ :=
  match sb.preClauses.findIdx? (fun c => c.1 = disc) with
  | some i =>
      runClauses (runAdds (runClauses x (sb.preClauses.drop i)) sb.defaultBody)
        sb.postClauses
  | none =>
      match sb.postClauses.findIdx? (fun c => c.1 = disc) with
      | some j => runClauses x (sb.postClauses.drop j)
      | none => runClauses (runAdds x sb.defaultBody) sb.postClauses

/-- The switch block of `testSwitchStatementFallthrough`
(`src/server/tests/interpreter_test.js` lines 233–259): case 1 adds 1,
case 2 adds 2, default (between case 2 and case 3) adds 16, case 3 adds 4,
case 4 adds 8, falling through throughout. -/
def fallthroughTestBlock : SwitchBlock :=
  { preClauses := [(1, [1]), (2, [2])]
    defaultBody := [16]
    postClauses := [(3, [4]), (4, [8])] }

/-- C5: evaluating the 5-branch fall-through switch (default between case 2
and case 3) with discriminant 0, 1, 2, 3, 4 and initial `x = 0` yields the
completion values 28, 31, 30, 12 and 8.  (The evaluator is modelled from the
spec since the interpreter source is absent from src/; expected values from
`testSwitchStatementFallthrough`.) -/
theorem switch_fallthrough_values :
    evalSwitch fallthroughTestBlock 0 0 = 28 ∧
    evalSwitch fallthroughTestBlock 1 0 = 31 ∧
    evalSwitch fallthroughTestBlock 2 0 = 30 ∧
    evalSwitch fallthroughTestBlock 3 0 = 12 ∧
    evalSwitch fallthroughTestBlock 4 0 = 8 := by
  refine ⟨?_, ?_, ?_, ?_, ?_⟩ <;> decide

/-! ## Threads, scheduler, blocking bridge, timers

`Modelled from the spec:` the interpreter/scheduler source is not in src/;
the thread state machine follows §3 (Thread), §4.2 (state machine), §4.1
(exception unwinding), §4.3 (timer subsystem) and §4.4 (blocking bridge). -/

namespace Interpreter

/-- Thread status (spec §3/§4.2): READY, RUNNING, SLEEPING(wakeTime),
BLOCKED, ZOMBIE. -/
inductive ThreadStatus where
  | ready
  | running
  | sleeping (wakeTime : Nat)
  | blocked
  | zombie
deriving DecidableEq, Repr

/-- One suspended State on a thread's state stack (spec §3 State): only the
distinction needed for unwinding is modelled — whether the frame is a `try`
State with a catch/finally handler. -/
inductive StateFrame where
  | tryFrame (tag : Nat)
  | plainFrame (tag : Nat)
deriving DecidableEq, Repr

/-- A thread: status plus its state stack (spec §3 Thread). -/
structure Thread where
  status : ThreadStatus
  stateStack : List StateFrame
deriving DecidableEq, Repr

/-- Scheduler state (spec §3): the thread table (in creation order) and the
current-thread pointer. -/
structure Scheduler where
  threads : List (Nat × Thread)
  current : Nat
deriving DecidableEq, Repr

/-- Look up a thread by id. -/
def Scheduler.findThread (s : Scheduler) (id : Nat) : Option Thread :=
  (s.threads.find? (fun p => p.1 = id)).map (·.2)

/-- Replace the thread with the given id (other entries untouched). -/
def Scheduler.updateThread (s : Scheduler) (id : Nat) (f : Thread → Thread) :
    Scheduler :=
  { s with threads := s.threads.map (fun p => if p.1 = id then (p.1, f p.2) else p) }

/-- Modelled from the spec (§4.1): `Threw` unwinds the State stack, popping
frames until a try State with a matching catch/finally is found; if none is
found the stack empties. -/
def unwindStack : List StateFrame → List StateFrame
  | [] => []
  | .tryFrame t :: rest => .tryFrame t :: rest
  | .plainFrame _ :: rest => unwindStack rest

/-- Modelled from the spec (§4.1, §4.4, §7): delivering a thrown error to a
thread unwinds that thread's own state stack — the thread recorded in the
blocking call, not whatever the scheduler's current-thread pointer happens to
designate; if the stack empties, the thread becomes ZOMBIE, else it resumes
in the found handler. -/
def rejectThread (s : Scheduler) (tid : Nat) : Scheduler :=
  s.updateThread tid (fun th =>
    match unwindStack th.stateStack with
    | [] => { status := .zombie, stateStack := [] }
    | st => { status := .ready, stateStack := st })

/-- Outcome recorded when a blocking call's resolve/reject pair is consumed. -/
inductive CallOutcome where
  | resolvedWith (v : Nat)
  | rejectedWith (v : Nat)
deriving DecidableEq, Repr

/-- One-shot status of a blocking call's resolve/reject pair. -/
inductive CallStatus where
  | pending
  | consumed (o : CallOutcome)
deriving DecidableEq, Repr

/-- A blocking native call: the thread that issued it and the one-shot
status of its resolve/reject pair (spec §4.4). -/
structure BlockedCall where
  thread : Nat
  status : CallStatus
deriving DecidableEq, Repr

/-- A host-level failure: an assertion error thrown synchronously at the
host call site, never delivered to guest code (spec §4.4, §7(b)). -/
inductive HostFailure where
  | assertionError (msg : String)
deriving DecidableEq, Repr

/-- Modelled from the spec (§4.4, §4.2 BLOCKED → READY): invoking the
resolve handle.  If the pair was already consumed this is a host-level
assertion failure (and, the result being an error, no scheduler state is
produced: the effect of the first completion stands). -/
def resolveCall (c : BlockedCall) (v : Nat) (s : Scheduler) :
    Except HostFailure (BlockedCall × Scheduler) :=
  match c.status with
  | .pending =>
      .ok ({ c with status := .consumed (.resolvedWith v) },
        s.updateThread c.thread (fun th => { th with status := .ready }))
  | .consumed _ => .error (.assertionError "resolve/reject pair already consumed")

/-- Modelled from the spec (§4.4): invoking the reject handle: the error is
thrown in the issuing thread (unwinding its stack); a second use of the pair
is a host-level assertion failure. -/
def rejectCall (c : BlockedCall) (v : Nat) (s : Scheduler) :
    Except HostFailure (BlockedCall × Scheduler) :=
  match c.status with
  | .pending =>
      .ok ({ c with status := .consumed (.rejectedWith v) }, rejectThread s c.thread)
  | .consumed _ => .error (.assertionError "resolve/reject pair already consumed")

theorem find?_map_update (l : List (Nat × Thread)) (id : Nat) (f : Thread → Thread) :
    (l.map (fun p => if p.1 = id then (p.1, f p.2) else p)).find?
        (fun p => p.1 = id) =
      (l.find? (fun p => p.1 = id)).map (fun p => (p.1, f p.2)) := by
  induction l with
  | nil => rfl
  | cons hd tl ih =>
      by_cases h : hd.1 = id
      · simp [List.find?, h]
      · simp [List.find?, h, ih]

theorem find?_map_update_ne (l : List (Nat × Thread)) (id o : Nat)
    (f : Thread → Thread) (hne : o ≠ id) :
    (l.map (fun p => if p.1 = id then (p.1, f p.2) else p)).find?
        (fun p => p.1 = o) =
      l.find? (fun p => p.1 = o) := by
  induction l with
  | nil => rfl
  | cons hd tl ih =>
      by_cases h : hd.1 = id
      · have ho : ¬ (hd.1 = o) := by
          intro hc
          exact hne (by rw [← hc, h])
        simp [List.find?, h, ho, ih, Ne.symm hne]
      · by_cases ho : hd.1 = o
        · simp [List.find?, h, ho, hne]
        · simp [List.find?, h, ho, ih]

theorem findThread_updateThread_self (s : Scheduler) (id : Nat)
    (f : Thread → Thread) (th : Thread) (h : s.findThread id = some th) :
    (s.updateThread id f).findThread id = some (f th) := by
  unfold Scheduler.findThread at h ⊢
  unfold Scheduler.updateThread
  simp only [find?_map_update]
  cases hf : s.threads.find? (fun p => p.1 = id) with
  | none => simp [hf] at h
  | some p =>
      simp [hf] at h
      simp [hf, h]

theorem findThread_updateThread_ne (s : Scheduler) (id o : Nat)
    (f : Thread → Thread) (hne : o ≠ id) :
    (s.updateThread id f).findThread o = s.findThread o := by
  unfold Scheduler.findThread Scheduler.updateThread
  simp only [find?_map_update_ne _ _ _ _ hne]

end Interpreter

/-- C2: when a blocking call's reject handle is invoked with an error the
guest does not catch, exactly the issuing thread is unwound and killed (its
state stack becomes empty, its status becomes ZOMBIE) while every other
thread — in particular a concurrently sleeping one — keeps its status and
state stack unchanged, and this holds regardless of which thread the
scheduler's current-thread pointer designates.  (Modelled from the spec,
§4.4/§7; scenario from `testAsyncRejectUnwind` in
`src/server/tests/interpreter_test.js`.) -/
theorem reject_unwinds_only_issuing_thread
    (c : Interpreter.BlockedCall) (v : Nat) (s : Interpreter.Scheduler)
    (th : Interpreter.Thread)
    (hpend : c.status = .pending)
    (hth : s.findThread c.thread = some th)
    (hnocatch : Interpreter.unwindStack th.stateStack = []) :
    ∃ c1 s1, Interpreter.rejectCall c v s = .ok (c1, s1) ∧
      s1.findThread c.thread =
        some { status := .zombie, stateStack := [] } ∧
      (∀ o, o ≠ c.thread → s1.findThread o = s.findThread o) ∧
      s1.current = s.current := by
  refine ⟨{ c with status := .consumed (.rejectedWith v) },
    Interpreter.rejectThread s c.thread, ?_, ?_, ?_, ?_⟩
  · unfold Interpreter.rejectCall
    rw [hpend]
  · unfold Interpreter.rejectThread
    have := Interpreter.findThread_updateThread_self s c.thread
      (fun th => match Interpreter.unwindStack th.stateStack with
        | [] => { status := .zombie, stateStack := [] }
        | st => { status := .ready, stateStack := st }) th hth
    rw [this]
    simp [hnocatch]
  · intro o ho
    exact Interpreter.findThread_updateThread_ne s c.thread o _ ho
  · rfl

/-- C2 witness: the `testAsyncRejectUnwind` scenario — thread 0 is a
background thread SLEEPING with a non-empty stack, thread 1 issued the
blocking call (BLOCKED, no try frame), and the scheduler's current pointer
designates thread 0; rejecting kills exactly thread 1 and leaves thread 0
sleeping with its stack. -/
theorem reject_unwinds_only_issuing_thread_witness :
    ∃ c1 s1,
      Interpreter.rejectCall
        { thread := 1, status := .pending } 7
        { threads :=
            [(0, { status := .sleeping 1000,
                   stateStack := [.plainFrame 0, .plainFrame 1] }),
             (1, { status := .blocked, stateStack := [.plainFrame 2] })],
          current := 0 } = .ok (c1, s1) ∧
      s1.findThread 1 = some { status := .zombie, stateStack := [] } ∧
      (∀ o, o ≠ 1 → s1.findThread o =
        Interpreter.Scheduler.findThread
          { threads :=
              [(0, { status := .sleeping 1000,
                     stateStack := [.plainFrame 0, .plainFrame 1] }),
               (1, { status := .blocked, stateStack := [.plainFrame 2] })],
            current := 0 } o) ∧
      s1.current = 0 := by
  exact reject_unwinds_only_issuing_thread
    { thread := 1, status := .pending } 7
    { threads :=
        [(0, { status := .sleeping 1000,
               stateStack := [.plainFrame 0, .plainFrame 1] }),
         (1, { status := .blocked, stateStack := [.plainFrame 2] })],
      current := 0 }
    { status := .blocked, stateStack := [.plainFrame 2] }
    (by decide) (by decide) (by decide)

/-- C3: a blocking call's resolve/reject pair is one-shot: after either
member has been invoked once, any later invocation of either member is a
host-level assertion error (a `HostFailure`, a type never delivered to guest
code) raised synchronously, and — the erroring call producing no new
scheduler state — the effect of the first completion stands.  (Modelled from
the spec §4.4; scenario from `testAsyncSafetyCheck`.) -/
theorem resolve_reject_one_shot
    (c : Interpreter.BlockedCall) (v w : Nat) (s : Interpreter.Scheduler)
    (hpend : c.status = .pending) :
    (∀ c1 s1, Interpreter.resolveCall c v s = .ok (c1, s1) →
      c1.status = .consumed (.resolvedWith v) ∧
      Interpreter.resolveCall c1 w s1 =
        .error (.assertionError "resolve/reject pair already consumed") ∧
      Interpreter.rejectCall c1 w s1 =
        .error (.assertionError "resolve/reject pair already consumed")) ∧
    (∀ c1 s1, Interpreter.rejectCall c v s = .ok (c1, s1) →
      c1.status = .consumed (.rejectedWith v) ∧
      Interpreter.resolveCall c1 w s1 =
        .error (.assertionError "resolve/reject pair already consumed") ∧
      Interpreter.rejectCall c1 w s1 =
        .error (.assertionError "resolve/reject pair already consumed")) := by
  constructor
  · intro c1 s1 h
    unfold Interpreter.resolveCall at h
    rw [hpend] at h
    simp at h
    obtain ⟨hc1, _⟩ := h
    subst hc1
    exact ⟨rfl, rfl, rfl⟩
  · intro c1 s1 h
    unfold Interpreter.rejectCall at h
    rw [hpend] at h
    simp at h
    obtain ⟨hc1, _⟩ := h
    subst hc1
    exact ⟨rfl, rfl, rfl⟩

/-- C3 witness: concrete pending call on a one-thread scheduler; resolving
succeeds once, then a second resolve or reject trips the assertion. -/
theorem resolve_reject_one_shot_witness :
    ({ thread := 0, status := .pending } : Interpreter.BlockedCall).status =
      .pending ∧
    Interpreter.resolveCall { thread := 0, status := .pending } 5
      { threads := [(0, { status := .blocked, stateStack := [] })],
        current := 0 } =
      .ok ({ thread := 0, status := .consumed (.resolvedWith 5) },
        { threads := [(0, { status := .ready, stateStack := [] })],
          current := 0 }) ∧
    (({ thread := 0,
        status := .consumed (.resolvedWith 5) } : Interpreter.BlockedCall).status =
      .consumed (.resolvedWith 5) ∧
     Interpreter.resolveCall
       { thread := 0, status := .consumed (.resolvedWith 5) } 9
       { threads := [(0, { status := .ready, stateStack := [] })],
         current := 0 } =
       .error (.assertionError "resolve/reject pair already consumed") ∧
     Interpreter.rejectCall
       { thread := 0, status := .consumed (.resolvedWith 5) } 9
       { threads := [(0, { status := .ready, stateStack := [] })],
         current := 0 } =
       .error (.assertionError "resolve/reject pair already consumed")) := by
  have hres : Interpreter.resolveCall { thread := 0, status := .pending } 5
      { threads := [(0, { status := .blocked, stateStack := [] })],
        current := 0 } =
      .ok ({ thread := 0, status := .consumed (.resolvedWith 5) },
        { threads := [(0, { status := .ready, stateStack := [] })],
          current := 0 }) := rfl
  exact ⟨rfl, hres,
    (resolve_reject_one_shot { thread := 0, status := .pending } 5 9
      { threads := [(0, { status := .blocked, stateStack := [] })],
        current := 0 } rfl).1 _ _ hres⟩

/-! ## Timer subsystem (`setTimeout` / `clearTimeout`)

`Modelled from the spec` (§4.3, §4.2 run loop): a timer thread created by
`setTimeout` has a body of observable actions; the scheduler repeatedly
selects the first READY thread in creation order and executes one action of
it, recording the action in a trace.  `clearTimeout` kills a referenced
thread only if it has never run; anything else is a silent no-op. -/

namespace Interpreter

/-- A thread as seen by the timer subsystem: its status, the remaining
observable actions of its body, and whether it has ever executed a step. -/
structure TimerThread where
  status : ThreadStatus
  body : List Nat
  hasRun : Bool
deriving DecidableEq, Repr

/-- Scheduler state for the timer subsystem: the thread table in creation
order plus the trace of executed (thread id, action) steps. -/
structure TimerSched where
  threads : List (Nat × TimerThread)
  trace : List (Nat × Nat)
deriving DecidableEq, Repr

/-- Look up a timer thread by id. -/
def TimerSched.findThread (s : TimerSched) (id : Nat) : Option TimerThread :=
  (s.threads.find? (fun p => p.1 = id)).map (·.2)

/-- Replace the timer thread with the given id. -/
def TimerSched.updateThread (s : TimerSched) (id : Nat)
    (f : TimerThread → TimerThread) : TimerSched :=
  { s with threads := s.threads.map (fun p => if p.1 = id then (p.1, f p.2) else p) }

/-- The guest value passed to `clearTimeout`: an (alleged) timer id, or any
other guest value such as a string. -/
inductive TimerArg where
  | id (n : Nat)
  | other (s : String)
deriving DecidableEq, Repr

/-- Modelled from the spec (§4.3): `clearTimeout(id)` — if the referenced
thread has not yet run, kill it (ZOMBIE) before it ever executes; clearing
an unknown, already-run, or already-cleared id, or passing a non-timer
value, is a silent no-op. -/
def clearTimeout (arg : TimerArg) (s : TimerSched) : TimerSched :=
  match arg with
  | .other _ => s
  | .id n =>
      match s.findThread n with
      | none => s
      | some th =>
          if th.status ≠ .zombie ∧ th.hasRun = false then
            s.updateThread n (fun t => { t with status := .zombie })
          else s

/-- Modelled from the spec (§4.2 run loop, §5 FIFO ordering): one scheduler
step — select the first READY thread in creation order; execute the next
action of its body (recording it in the trace), or mark it ZOMBIE if its
body is exhausted.  ZOMBIE threads are never selected. -/
def TimerSched.step (s : TimerSched) : TimerSched :=
  match s.threads.find? (fun p => p.2.status = .ready) with
  | none => s
  | some (tid, th) =>
      match th.body with
      | [] => s.updateThread tid (fun t => { t with status := .zombie, hasRun := true })
      | a :: rest =>
          { s.updateThread tid (fun t => { t with body := rest, hasRun := true }) with
            trace := s.trace ++ [(tid, a)] }

theorem tfind?_map_update (l : List (Nat × TimerThread)) (id : Nat)
    (f : TimerThread → TimerThread) :
    (l.map (fun p => if p.1 = id then (p.1, f p.2) else p)).find?
        (fun p => p.1 = id) =
      (l.find? (fun p => p.1 = id)).map (fun p => (p.1, f p.2)) := by
  induction l with
  | nil => rfl
  | cons hd tl ih =>
      by_cases h : hd.1 = id
      · simp [List.find?, h]
      · simp [List.find?, h, ih]

theorem tfind?_map_update_ne (l : List (Nat × TimerThread)) (id o : Nat)
    (f : TimerThread → TimerThread) (hne : o ≠ id) :
    (l.map (fun p => if p.1 = id then (p.1, f p.2) else p)).find?
        (fun p => p.1 = o) =
      l.find? (fun p => p.1 = o) := by
  induction l with
  | nil => rfl
  | cons hd tl ih =>
      by_cases h : hd.1 = id
      · have ho : ¬ (hd.1 = o) := by
          intro hc
          exact hne (by rw [← hc, h])
        simp [List.find?, h, ho, ih, Ne.symm hne]
      · by_cases ho : hd.1 = o
        · simp [List.find?, h, ho, hne]
        · simp [List.find?, h, ho, ih]

theorem tfindThread_updateThread_self (s : TimerSched) (id : Nat)
    (f : TimerThread → TimerThread) (th : TimerThread)
    (h : s.findThread id = some th) :
    (s.updateThread id f).findThread id = some (f th) := by
  unfold TimerSched.findThread at h ⊢
  unfold TimerSched.updateThread
  simp only [tfind?_map_update]
  cases hf : s.threads.find? (fun p => p.1 = id) with
  | none => simp [hf] at h
  | some p =>
      simp [hf] at h
      simp [hf, h]

theorem tfindThread_updateThread_ne (s : TimerSched) (id o : Nat)
    (f : TimerThread → TimerThread) (hne : o ≠ id) :
    (s.updateThread id f).findThread o = s.findThread o := by
  unfold TimerSched.findThread TimerSched.updateThread
  simp only [tfind?_map_update_ne _ _ _ _ hne]

/-- A scheduler state is trace-consistent when no trace entry belongs to a
thread that has never run.  (Freshly created schedulers have an empty
trace; `TimerSched.step` preserves the property.) -/
def TimerSched.TraceConsistent (s : TimerSched) : Prop :=
  ∀ p ∈ s.trace, ∀ t, s.findThread p.1 = some t → t.hasRun = true

/-- A scheduler state has well-formed ids when no two threads share an id
(the spec §3 requires unique thread ids). -/
def TimerSched.WfIds (s : TimerSched) : Prop := (s.threads.map Prod.fst).Nodup

theorem tmap_fst_update (l : List (Nat × TimerThread)) (id : Nat)
    (f : TimerThread → TimerThread) :
    (l.map (fun p => if p.1 = id then (p.1, f p.2) else p)).map Prod.fst =
      l.map Prod.fst := by
  induction l with
  | nil => rfl
  | cons hd tl ih =>
      by_cases h : hd.1 = id <;> simp [h, ih]

theorem updateThread_WfIds (s : TimerSched) (id : Nat)
    (f : TimerThread → TimerThread) (h : s.WfIds) :
    (s.updateThread id f).WfIds := by
  unfold TimerSched.WfIds at h
  unfold TimerSched.WfIds TimerSched.updateThread
  rw [tmap_fst_update]
  exact h

theorem tfind?_of_mem_nodup (l : List (Nat × TimerThread))
    (hnd : (l.map Prod.fst).Nodup) (n : Nat) (t : TimerThread)
    (hmem : (n, t) ∈ l) :
    l.find? (fun p => p.1 = n) = some (n, t) := by
  induction l with
  | nil => cases hmem
  | cons hd tl ih =>
      rw [List.map_cons] at hnd
      obtain ⟨hnotin, hnd2⟩ := List.nodup_cons.mp hnd
      rcases List.mem_cons.mp hmem with heq | htl
      · subst heq
        simp [List.find?]
      · have hn : n ∈ tl.map Prod.fst :=
          List.mem_map.mpr ⟨(n, t), htl, rfl⟩
        have hhd : ¬ (hd.1 = n) := by
          intro hc
          exact hnotin (hc ▸ hn)
        simp [List.find?, hhd, ih hnd2 htl]

/-- `findThread` ignores the trace. -/
theorem findThread_trace_irrel (s : TimerSched) (tr : List (Nat × Nat))
    (n : Nat) :
    TimerSched.findThread { s with trace := tr } n = s.findThread n := rfl

/-- `WfIds` ignores the trace. -/
theorem WfIds_trace_irrel (s : TimerSched) (tr : List (Nat × Nat)) :
    TimerSched.WfIds { s with trace := tr } ↔ s.WfIds := Iff.rfl

/-- A ZOMBIE thread stays ZOMBIE under `step`, which also never appends a
trace entry for it. -/
theorem step_preserves_zombie (s : TimerSched) (n : Nat) (th : TimerThread)
    (hnd : s.WfIds) (hth : s.findThread n = some th)
    (hz : th.status = .zombie) :
    s.step.findThread n = some th ∧
      (∀ p ∈ s.step.trace, p ∈ s.trace ∨ p.1 ≠ n) ∧ s.step.WfIds := by
  cases hf : s.threads.find? (fun p => p.2.status = .ready) with
  | none =>
      have hs : s.step = s := by
        unfold TimerSched.step
        rw [hf]
      rw [hs]
      exact ⟨hth, fun p hp => Or.inl hp, hnd⟩
  | some q =>
      obtain ⟨tid, tth⟩ := q
      have hready : tth.status = .ready := by
        have := List.find?_some hf
        simpa using this
      have hne : n ≠ tid := by
        intro hc
        subst hc
        have hmem := List.mem_of_find?_eq_some hf
        have hft := tfind?_of_mem_nodup s.threads hnd n tth hmem
        unfold TimerSched.findThread at hth
        rw [hft] at hth
        simp at hth
        rw [hth] at hready
        rw [hz] at hready
        cases hready
      cases hb : tth.body with
      | nil =>
          have hs : s.step =
              s.updateThread tid
                (fun t => { t with status := .zombie, hasRun := true }) := by
            simp only [TimerSched.step, hf, hb]
          rw [hs]
          refine ⟨?_, fun p hp => Or.inl ?_, ?_⟩
          · rw [tfindThread_updateThread_ne s tid n _ hne]
            exact hth
          · simpa [TimerSched.updateThread] using hp
          · exact updateThread_WfIds s tid _ hnd
      | cons a rest =>
          have hs : s.step =
              { s.updateThread tid
                  (fun t => { t with body := rest, hasRun := true }) with
                trace := s.trace ++ [(tid, a)] } := by
            simp only [TimerSched.step, hf, hb]
          rw [hs]
          refine ⟨?_, ?_, ?_⟩
          · rw [findThread_trace_irrel]
            rw [tfindThread_updateThread_ne s tid n _ hne]
            exact hth
          · intro p hp
            have hp2 : p ∈ s.trace ++ [(tid, a)] := by
              simpa [TimerSched.updateThread] using hp
            rcases List.mem_append.mp hp2 with h1 | h1
            · exact Or.inl h1
            · right
              have hpe : p = (tid, a) := by simpa using h1
              rw [hpe]
              exact fun hc => hne hc.symm
          · rw [WfIds_trace_irrel]
            exact updateThread_WfIds s tid _ hnd

/-- Iterated form: a scheduler started with a ZOMBIE thread `n` never adds a
trace entry for `n`, no matter how many steps run. -/
theorem iterate_no_trace_of_zombie (k : Nat) :
    ∀ (s : TimerSched) (n : Nat) (th : TimerThread), s.WfIds →
      s.findThread n = some th → th.status = .zombie →
      ∀ p ∈ (TimerSched.step^[k] s).trace, p ∈ s.trace ∨ p.1 ≠ n := by
  induction k with
  | zero => intro s n th _ _ _ p hp; exact Or.inl hp
  | succ k ih =>
      intro s n th hnd hth hz p hp
      rw [Function.iterate_succ_apply] at hp
      obtain ⟨hth2, htr, hnd2⟩ := step_preserves_zombie s n th hnd hth hz
      rcases ih s.step n th hnd2 hth2 hz p hp with h1 | h1
      · rcases htr p h1 with h2 | h2
        · exact Or.inl h2
        · exact Or.inr h2
      · exact Or.inr h1

end Interpreter

/-- C6: `clearTimeout(id)` on a timer thread that has not yet run kills it
(ZOMBIE) so that no step of its body is ever executed; `clearTimeout` on an
unknown id, an already-run id, an already-cleared id, or a non-timer value
(e.g. a string) returns normally as a no-op, raising no error and changing
no scheduler state.  (Modelled from the spec §4.3; scenario from
`testThreading` in `src/server/tests/interpreter_test.js`.  The "current
thread" no-op of the test is the already-run case: the calling thread has
run by definition.) -/
theorem clearTimeout_kill_or_noop :
    (∀ (s : Interpreter.TimerSched) (n : Nat) (th : Interpreter.TimerThread),
      s.WfIds → s.TraceConsistent →
      s.findThread n = some th → th.hasRun = false → th.status ≠ .zombie →
      (Interpreter.clearTimeout (.id n) s).findThread n =
          some { th with status := .zombie } ∧
        ∀ k, ∀ p ∈ (Interpreter.TimerSched.step^[k]
            (Interpreter.clearTimeout (.id n) s)).trace, p.1 ≠ n) ∧
    (∀ (s : Interpreter.TimerSched) (n : Nat),
      s.findThread n = none → Interpreter.clearTimeout (.id n) s = s) ∧
    (∀ (s : Interpreter.TimerSched) (n : Nat) (th : Interpreter.TimerThread),
      s.findThread n = some th → th.hasRun = true →
      Interpreter.clearTimeout (.id n) s = s) ∧
    (∀ (s : Interpreter.TimerSched) (n : Nat) (th : Interpreter.TimerThread),
      s.findThread n = some th → th.status = .zombie →
      Interpreter.clearTimeout (.id n) s = s) ∧
    (∀ (s : Interpreter.TimerSched) (str : String),
      Interpreter.clearTimeout (.other str) s = s) := by
  refine ⟨?_, ?_, ?_, ?_, ?_⟩
  · intro s n th hnd htc hth hnr hnz
    have hcl : Interpreter.clearTimeout (.id n) s =
        s.updateThread n (fun t => { t with status := .zombie }) := by
      simp only [Interpreter.clearTimeout]
      rw [hth]
      simp [hnz, hnr]
    have hfind : (s.updateThread n
        (fun t => { t with status := .zombie })).findThread n =
        some { th with status := .zombie } :=
      Interpreter.tfindThread_updateThread_self s n _ th hth
    have hnd1 : (s.updateThread n
        (fun t => { t with status := .zombie })).WfIds :=
      Interpreter.updateThread_WfIds s n _ hnd
    have htrace1 : ∀ p ∈ (s.updateThread n
        (fun t => { t with status := .zombie })).trace, p.1 ≠ n := by
      intro p hp hc
      have hp2 : p ∈ s.trace := by
        simpa [Interpreter.TimerSched.updateThread] using hp
      have := htc p hp2 th (hc ▸ hth)
      rw [this] at hnr
      cases hnr
    constructor
    · rw [hcl]
      exact hfind
    · intro k p hp
      rw [hcl] at hp
      have := Interpreter.iterate_no_trace_of_zombie k _ n
        { th with status := .zombie } hnd1 hfind rfl p hp
      rcases this with h1 | h1
      · exact htrace1 p h1
      · exact h1
  · intro s n hnone
    simp only [Interpreter.clearTimeout]
    rw [hnone]
  · intro s n th hth hrun
    simp only [Interpreter.clearTimeout]
    rw [hth]
    simp [hrun]
  · intro s n th hth hz
    simp only [Interpreter.clearTimeout]
    rw [hth]
    simp [hz]
  · intro s str
    rfl

/-- C6 witness: the `testThreading` clearTimeout scenario — thread 0 is the
(already-running) main thread, thread 1 a not-yet-run timer thread with a
two-action body; clearing thread 1 kills it and its body never appears in
any future trace, and clearing a string is a no-op. -/
theorem clearTimeout_kill_or_noop_witness :
    ((Interpreter.clearTimeout (.id 1)
        { threads :=
            [(0, { status := .ready, body := [9], hasRun := true }),
             (1, { status := .ready, body := [2, 4], hasRun := false })],
          trace := [(0, 1)] }).findThread 1 =
        some { status := .zombie, body := [2, 4], hasRun := false } ∧
      ∀ k, ∀ p ∈ (Interpreter.TimerSched.step^[k]
          (Interpreter.clearTimeout (.id 1)
            { threads :=
                [(0, { status := .ready, body := [9], hasRun := true }),
                 (1, { status := .ready, body := [2, 4], hasRun := false })],
              trace := [(0, 1)] })).trace, p.1 ≠ 1) ∧
    Interpreter.clearTimeout (.other "foo")
        { threads :=
            [(0, { status := .ready, body := [9], hasRun := true }),
             (1, { status := .ready, body := [2, 4], hasRun := false })],
          trace := [(0, 1)] } =
      { threads :=
          [(0, { status := .ready, body := [9], hasRun := true }),
           (1, { status := .ready, body := [2, 4], hasRun := false })],
        trace := [(0, 1)] } := by
  constructor
  · exact clearTimeout_kill_or_noop.1
      { threads :=
          [(0, { status := .ready, body := [9], hasRun := true }),
           (1, { status := .ready, body := [2, 4], hasRun := false })],
        trace := [(0, 1)] } 1
      { status := .ready, body := [2, 4], hasRun := false }
      (by unfold Interpreter.TimerSched.WfIds; decide)
      (by
        intro p hp t hft
        simp at hp
        subst hp
        have hft2 : some (Interpreter.TimerThread.mk .ready [9] true) =
            some t := by
          rw [← hft]
          rfl
        cases hft2
        rfl)
      rfl
      rfl
      (by decide)
  · exact clearTimeout_kill_or_noop.2.2.2.2 _ "foo"

/-! ## The serializer (`src/server/serialize.js`)

The following definitions embed `Serializer.serialize`, its inner
`encodeValue`, `Serializer.deserialize`, its inner `decodeValue`, and
`Serializer.objectHunt_` directly from the source. -/

/-- A parsed-JSON value: the serializer's output and the deserializer's
input. -/
inductive JsonValue where
  | jnull
  | jbool (b : Bool)
  | jnum (q : ℚ)
  | jstr (s : String)
  | jarr (elems : List JsonValue)
  | jobj (fields : List (String × JsonValue))

/-- A guest value reachable from the interpreter's state stack: a JS
primitive or a reference to a heap node.  `junk` represents the raw
parsed-JSON value that `decodeValue` returns when it falls through all of
its tag checks (serialize.js line 53); well-formed interpreter states never
contain junk values. -/
inductive GVal where
  | undef
  | vnull
  | bool (b : Bool)
  | num (n : JSNum)
  | str (s : String)
  | ref (id : Nat)
  | junk (j : JsonValue)

/-- The node referenced by a value, if it is a reference. -/
def GVal.refTarget : GVal → Option Nat
  | .ref n => some n
  | _ => none

/-- One non-primitive value of the interpreter being serialized, classified
the way `Serializer.serialize` classifies it by prototype:
`mapObj` = `Object.create(null)` maps; `plainObj` = plain objects;
`scopeRefObj` = the `Interpreter.SCOPE_REFERENCE` singleton; `typedObj` =
an instance of one of the interpreter classes listed in
`getTypesDeserialize_` (Scope, PseudoObject/Function/Array/Date/RegExp/
Error, AST Node), carrying that type name; `funcObj` = a native JS function
(identified only by its stable string `id` property — its own properties
are neither hunted nor serialized, `typeof` being `'function'`); `arrObj` =
a dense array (the source assumes arrays are not sparse: the index
properties are the elements and `length` is a primitive); `setObj` = a
`Set` (elements live in internal slots, not own properties); `dateObj`
(payload: its `toJSON()` string); `regExpObj` (source and flags). -/
inductive NodeData where
  | mapObj (props : List (String × GVal))
  | plainObj (props : List (String × GVal))
  | scopeRefObj (props : List (String × GVal))
  | typedObj (ty : String) (props : List (String × GVal))
  | funcObj (id : Option String)
  | arrObj (elems : List GVal)
  | setObj (elems : List GVal)
  | dateObj (iso : String)
  | regExpObj (source : String) (flags : String)

/-- The non-primitive values of one interpreter, addressed by node id. -/
abbrev Heap := List NodeData

/-- An interpreter as the serializer sees it: its heap of non-primitive
values and the node id of `interpreter.stateStack` (a dense array). -/
structure Interp where
  heap : Heap
  stackId : Nat

/-- The values `Serializer.objectHunt_` recurses into for a node
(`Object.getOwnPropertyNames` order): own property values for the
property-bag kinds; the elements (index properties) for dense arrays; and
nothing for Sets/Dates/RegExps (internal slots are not own properties) nor
for functions (the hunt only recurses when `typeof node === 'object'`). -/
def NodeData.huntChildren : NodeData → List GVal
  | .mapObj ps => ps.map (·.2)
  | .plainObj ps => ps.map (·.2)
  | .scopeRefObj ps => ps.map (·.2)
  | .typedObj _ ps => ps.map (·.2)
  | .funcObj _ => []
  | .arrObj es => es
  | .setObj _ => []
  | .dateObj _ => []
  | .regExpObj _ _ => []

namespace Serializer

/-- `Serializer.objectHunt_` (serialize.js lines 263–277), translated with
an explicit recursion-depth budget `fuel` standing for the host call
stack.  `objectHuntList` is the source's `for` loop over
`getOwnPropertyNames`: each value is visited in order; a non-primitive not
already in the list is appended and (when its `typeof` is `'object'`) its
own property values are hunted recursively before the loop continues.
`none` means the depth budget ran out; the sufficiency theorem below shows
a budget of `h.length` always completes.  (A reference to a non-existent
node cannot arise from a real JS object graph; for totality it is appended
like a leaf.) -/
def objectHuntList (h : Heap) : Nat → List GVal → List Nat → Option (List Nat)
  | _, [], acc => some acc
  | fuel, .ref n :: vs, acc =>
      if n ∈ acc then objectHuntList h fuel vs acc
      else
        match h.get? n with
        | none => objectHuntList h fuel vs (acc ++ [n])
        | some nd =>
            match fuel with
            | 0 => none
            | f + 1 =>
                match objectHuntList h f nd.huntChildren (acc ++ [n]) with
                | none => none
                | some acc2 => objectHuntList h (f + 1) vs acc2
  | fuel, _ :: vs, acc => objectHuntList h fuel vs acc
termination_by fuel vs _ => (fuel, vs.length)

/-- `Serializer.objectHunt_` on a single root value. -/
def objectHunt_ (h : Heap) (fuel : Nat) (v : GVal) (acc : List Nat) :
    Option (List Nat) :=
  objectHuntList h fuel [v] acc

/-- Number of heap nodes not yet visited: the measure bounding the hunt's
recursion depth. -/
def unvisited (h : Heap) (acc : List Nat) : Nat :=
  ((Finset.range h.length).filter (fun n => n ∉ acc)).card

theorem unvisited_append_le (h : Heap) (acc l : List Nat) :
    unvisited h (acc ++ l) ≤ unvisited h acc := by
  apply Finset.card_le_card
  intro n hn
  simp only [Finset.mem_filter, Finset.mem_range, List.mem_append] at hn ⊢
  exact ⟨hn.1, fun hc => hn.2 (Or.inl hc)⟩

theorem unvisited_push_lt (h : Heap) (acc : List Nat) (n : Nat)
    (hlt : n < h.length) (hnotin : n ∉ acc) :
    unvisited h (acc ++ [n]) < unvisited h acc := by
  apply Finset.card_lt_card
  constructor
  · intro m hm
    simp only [Finset.mem_filter, Finset.mem_range, List.mem_append] at hm ⊢
    exact ⟨hm.1, fun hc => hm.2 (Or.inl hc)⟩
  · intro hsub
    have hn : n ∈ (Finset.range h.length).filter (fun m => m ∉ acc) := by
      simp only [Finset.mem_filter, Finset.mem_range]
      exact ⟨hlt, hnotin⟩
    have := hsub hn
    simp only [Finset.mem_filter, Finset.mem_range, List.mem_append] at this
    exact this.2 (Or.inr (by simp))

/-- The hunt only appends to the visited list, and never increases the
number of unvisited nodes. -/
theorem objectHuntList_grows (h : Heap) :
    ∀ (fuel : Nat) (vs : List GVal) (acc r : List Nat),
      objectHuntList h fuel vs acc = some r →
      (∃ t, r = acc ++ t) ∧ unvisited h r ≤ unvisited h acc := by
  intro fuel
  induction fuel using Nat.strong_induction_on with
  | _ fuel ihf =>
    intro vs
    induction vs with
    | nil =>
        intro acc r hr
        simp only [objectHuntList] at hr
        cases hr
        exact ⟨⟨[], by simp⟩, le_rfl⟩
    | cons v vs ihl =>
        intro acc r hr
        cases v with
        | ref n =>
            simp only [objectHuntList] at hr
            by_cases hmem : n ∈ acc
            · rw [if_pos hmem] at hr
              exact ihl acc r hr
            · rw [if_neg hmem] at hr
              cases hg : h.get? n with
              | none =>
                  rw [hg] at hr
                  dsimp only at hr
                  obtain ⟨⟨t, ht⟩, hu⟩ := ihl (acc ++ [n]) r hr
                  refine ⟨⟨[n] ++ t, by simp [ht]⟩, ?_⟩
                  exact le_trans hu (unvisited_append_le h acc [n])
              | some nd =>
                  rw [hg] at hr
                  dsimp only at hr
                  cases fuel with
                  | zero => dsimp only at hr; cases hr
                  | succ f =>
                      dsimp only at hr
                      cases hin : objectHuntList h f nd.huntChildren (acc ++ [n]) with
                      | none => rw [hin] at hr; dsimp only at hr; cases hr
                      | some acc2 =>
                          rw [hin] at hr
                          dsimp only at hr
                          obtain ⟨⟨t1, ht1⟩, hu1⟩ :=
                            ihf f (Nat.lt_succ_self f) _ _ _ hin
                          obtain ⟨⟨t2, ht2⟩, hu2⟩ := ihl acc2 r hr
                          refine ⟨⟨[n] ++ t1 ++ t2, ?_⟩, ?_⟩
                          · rw [ht2, ht1]
                            simp
                          · calc unvisited h r ≤ unvisited h acc2 := hu2
                              _ ≤ unvisited h (acc ++ [n]) := hu1
                              _ ≤ unvisited h acc := unvisited_append_le h acc [n]
        | undef => simp only [objectHuntList] at hr; exact ihl acc r hr
        | vnull => simp only [objectHuntList] at hr; exact ihl acc r hr
        | bool b => simp only [objectHuntList] at hr; exact ihl acc r hr
        | num m => simp only [objectHuntList] at hr; exact ihl acc r hr
        | str s => simp only [objectHuntList] at hr; exact ihl acc r hr
        | junk j => simp only [objectHuntList] at hr; exact ihl acc r hr

/-- Sufficiency: a depth budget of `unvisited h acc` (in particular
`h.length`) always completes the hunt — it terminates on every object
graph, cycles included. -/
theorem objectHuntList_total (h : Heap) :
    ∀ (fuel : Nat) (vs : List GVal) (acc : List Nat),
      unvisited h acc ≤ fuel →
      ∃ r, objectHuntList h fuel vs acc = some r := by
  intro fuel
  induction fuel using Nat.strong_induction_on with
  | _ fuel ihf =>
    intro vs
    induction vs with
    | nil =>
        intro acc _
        exact ⟨acc, by simp only [objectHuntList]⟩
    | cons v vs ihl =>
        intro acc hle
        cases v with
        | ref n =>
            by_cases hmem : n ∈ acc
            · obtain ⟨r, hr⟩ := ihl acc hle
              refine ⟨r, ?_⟩
              simp only [objectHuntList]
              rw [if_pos hmem]
              exact hr
            · cases hg : h.get? n with
              | none =>
                  have hle2 : unvisited h (acc ++ [n]) ≤ fuel :=
                    le_trans (unvisited_append_le h acc [n]) hle
                  obtain ⟨r, hr⟩ := ihl (acc ++ [n]) hle2
                  refine ⟨r, ?_⟩
                  simp only [objectHuntList]
                  rw [if_neg hmem, hg]
                  exact hr
              | some nd =>
                  have hlt : n < h.length := by
                    by_contra hge
                    push_neg at hge
                    rw [List.get?_eq_none.mpr hge] at hg
                    cases hg
                  have hpush := unvisited_push_lt h acc n hlt hmem
                  cases fuel with
                  | zero => omega
                  | succ f =>
                      have hle1 : unvisited h (acc ++ [n]) ≤ f := by omega
                      obtain ⟨acc2, hacc2⟩ :=
                        ihf f (Nat.lt_succ_self f) nd.huntChildren (acc ++ [n]) hle1
                      have hgrow := objectHuntList_grows h f nd.huntChildren
                        (acc ++ [n]) acc2 hacc2
                      have hle3 : unvisited h acc2 ≤ f + 1 := by
                        have h1 := hgrow.2
                        have h2 := unvisited_append_le h acc [n]
                        omega
                      obtain ⟨r, hr⟩ := ihl acc2 hle3
                      refine ⟨r, ?_⟩
                      simp only [objectHuntList]
                      rw [if_neg hmem]
                      simp only [hg, hacc2]
                      exact hr
        | undef =>
            obtain ⟨r, hr⟩ := ihl acc hle
            exact ⟨r, by simp only [objectHuntList]; exact hr⟩
        | vnull =>
            obtain ⟨r, hr⟩ := ihl acc hle
            exact ⟨r, by simp only [objectHuntList]; exact hr⟩
        | bool b =>
            obtain ⟨r, hr⟩ := ihl acc hle
            exact ⟨r, by simp only [objectHuntList]; exact hr⟩
        | num m =>
            obtain ⟨r, hr⟩ := ihl acc hle
            exact ⟨r, by simp only [objectHuntList]; exact hr⟩
        | str s =>
            obtain ⟨r, hr⟩ := ihl acc hle
            exact ⟨r, by simp only [objectHuntList]; exact hr⟩
        | junk j =>
            obtain ⟨r, hr⟩ := ihl acc hle
            exact ⟨r, by simp only [objectHuntList]; exact hr⟩

/-- Reachability along the hunt's traversal structure: a value reaches the
node it references, and from a reached node one step follows any reference
among the node's hunt children. -/
inductive ReachesV (h : Heap) : GVal → Nat → Prop where
  | base (n : Nat) : ReachesV h (.ref n) n
  | step {v : GVal} {p : Nat} {nd : NodeData} {m : Nat} :
      ReachesV h v p → h.get? p = some nd → GVal.ref m ∈ nd.huntChildren →
      ReachesV h v m

/-- Reaching from a child of node `n` gives reaching from `n` itself. -/
theorem ReachesV.lift (h : Heap) (n : Nat) (nd : NodeData)
    (hg : h.get? n = some nd) (c : GVal) (hc : c ∈ nd.huntChildren)
    (m : Nat) (hr : ReachesV h c m) : ReachesV h (.ref n) m := by
  induction hr with
  | base k => exact ReachesV.step (ReachesV.base n) hg hc
  | step hp hgp hcp ih => exact ReachesV.step (ih hc) hgp hcp

/-- Appending a fresh element preserves `Nodup`. -/
theorem nodup_append_singleton {acc : List Nat} {n : Nat}
    (hd : acc.Nodup) (hmem : n ∉ acc) : (acc ++ [n]).Nodup :=
  List.Nodup.append hd (List.nodup_singleton n)
    (fun x hx hx2 => hmem (by rwa [List.mem_singleton.mp hx2] at hx))

/-- Main hunt invariant: every reference in the worklist ends up in the
result; every newly visited node is reachable from some worklist value and
has all its reference children in the result; and no node is ever pushed
twice. -/
theorem objectHuntList_invariant (h : Heap) :
    ∀ (fuel : Nat) (vs : List GVal) (acc r : List Nat),
      objectHuntList h fuel vs acc = some r →
      (∀ v ∈ vs, ∀ m, v.refTarget = some m → m ∈ r) ∧
      (∀ p ∈ r, p ∉ acc →
        (∃ v ∈ vs, ReachesV h v p) ∧
        (∀ nd, h.get? p = some nd → ∀ m, GVal.ref m ∈ nd.huntChildren → m ∈ r)) ∧
      (acc.Nodup → r.Nodup) := by
  intro fuel
  induction fuel using Nat.strong_induction_on with
  | _ fuel ihf =>
    intro vs
    induction vs with
    | nil =>
        intro acc r hr
        simp only [objectHuntList] at hr
        cases hr
        refine ⟨by simp, ?_, fun hd => hd⟩
        intro p hp hnp
        exact absurd hp hnp
    | cons v vs ihl =>
        intro acc r hr
        have haccr : ∀ x ∈ acc, x ∈ r := by
          obtain ⟨⟨t, ht⟩, _⟩ := objectHuntList_grows h _ _ _ _ hr
          intro x hx
          rw [ht]
          exact List.mem_append.mpr (Or.inl hx)
        cases v with
        | ref n =>
            simp only [objectHuntList] at hr
            by_cases hmem : n ∈ acc
            · rw [if_pos hmem] at hr
              obtain ⟨hVs, hNew, hNodup⟩ := ihl acc r hr
              refine ⟨?_, ?_, hNodup⟩
              · intro v hv m hm
                rcases List.mem_cons.mp hv with hv1 | hv1
                · subst hv1
                  simp only [GVal.refTarget] at hm
                  cases hm
                  exact haccr n hmem
                · exact hVs v hv1 m hm
              · intro p hp hnp
                obtain ⟨⟨v', hv', hreach⟩, hcl⟩ := hNew p hp hnp
                exact ⟨⟨v', List.mem_cons.mpr (Or.inr hv'), hreach⟩, hcl⟩
            · rw [if_neg hmem] at hr
              cases hg : h.get? n with
              | none =>
                  rw [hg] at hr
                  dsimp only at hr
                  obtain ⟨hVs, hNew, hNodup⟩ := ihl (acc ++ [n]) r hr
                  have haccr2 : ∀ x ∈ acc ++ [n], x ∈ r := by
                    obtain ⟨⟨t, ht⟩, _⟩ := objectHuntList_grows h _ _ _ _ hr
                    intro x hx
                    rw [ht]
                    exact List.mem_append.mpr (Or.inl hx)
                  refine ⟨?_, ?_, ?_⟩
                  · intro v hv m hm
                    rcases List.mem_cons.mp hv with hv1 | hv1
                    · subst hv1
                      simp only [GVal.refTarget] at hm
                      cases hm
                      exact haccr2 n (by simp)
                    · exact hVs v hv1 m hm
                  · intro p hp hnp
                    by_cases hpn : p ∈ acc ++ [n]
                    · have hpeq : p = n := by
                        rcases List.mem_append.mp hpn with h1 | h1
                        · exact absurd h1 hnp
                        · simpa using h1
                      subst hpeq
                      refine ⟨⟨.ref p, List.mem_cons.mpr (Or.inl rfl),
                        ReachesV.base p⟩, ?_⟩
                      intro nd hnd
                      rw [hg] at hnd
                      cases hnd
                    · obtain ⟨⟨v', hv', hreach⟩, hcl⟩ := hNew p hp hpn
                      exact ⟨⟨v', List.mem_cons.mpr (Or.inr hv'), hreach⟩, hcl⟩
                  · intro hd
                    exact hNodup (nodup_append_singleton hd hmem)
              | some nd =>
                  rw [hg] at hr
                  dsimp only at hr
                  cases fuel with
                  | zero => dsimp only at hr; cases hr
                  | succ f =>
                      dsimp only at hr
                      cases hin : objectHuntList h f nd.huntChildren (acc ++ [n]) with
                      | none => rw [hin] at hr; dsimp only at hr; cases hr
                      | some acc2 =>
                          rw [hin] at hr
                          dsimp only at hr
                          obtain ⟨hChild, hNewInner, hNodupInner⟩ :=
                            ihf f (Nat.lt_succ_self f) _ _ _ hin
                          obtain ⟨hVs, hNewOuter, hNodupOuter⟩ := ihl acc2 r hr
                          have hsub1 : ∀ x ∈ acc ++ [n], x ∈ acc2 := by
                            obtain ⟨⟨t, ht⟩, _⟩ := objectHuntList_grows h _ _ _ _ hin
                            intro x hx
                            rw [ht]
                            exact List.mem_append.mpr (Or.inl hx)
                          have hsub2 : ∀ x ∈ acc2, x ∈ r := by
                            obtain ⟨⟨t, ht⟩, _⟩ := objectHuntList_grows h _ _ _ _ hr
                            intro x hx
                            rw [ht]
                            exact List.mem_append.mpr (Or.inl hx)
                          refine ⟨?_, ?_, ?_⟩
                          · intro v hv m hm
                            rcases List.mem_cons.mp hv with hv1 | hv1
                            · subst hv1
                              simp only [GVal.refTarget] at hm
                              cases hm
                              exact hsub2 n (hsub1 n (by simp))
                            · exact hVs v hv1 m hm
                          · intro p hp hnp
                            by_cases hpacc2 : p ∈ acc2
                            · by_cases hpn : p ∈ acc ++ [n]
                              · have hpeq : p = n := by
                                  rcases List.mem_append.mp hpn with h1 | h1
                                  · exact absurd h1 hnp
                                  · simpa using h1
                                subst hpeq
                                refine ⟨⟨.ref p, List.mem_cons.mpr (Or.inl rfl),
                                  ReachesV.base p⟩, ?_⟩
                                intro nd2 hnd2 m hm
                                rw [hg] at hnd2
                                cases hnd2
                                exact hsub2 m (hChild (.ref m) hm m rfl)
                              · obtain ⟨⟨c, hc, hreach⟩, hclInner⟩ :=
                                  hNewInner p hpacc2 hpn
                                refine ⟨⟨.ref n, List.mem_cons.mpr (Or.inl rfl),
                                  ReachesV.lift h n nd hg c hc p hreach⟩, ?_⟩
                                intro nd2 hnd2 m hm
                                exact hsub2 m (hclInner nd2 hnd2 m hm)
                            · obtain ⟨⟨v', hv', hreach⟩, hcl⟩ :=
                                hNewOuter p hp hpacc2
                              exact ⟨⟨v', List.mem_cons.mpr (Or.inr hv'), hreach⟩, hcl⟩
                          · intro hd
                            exact hNodupOuter (hNodupInner (nodup_append_singleton hd hmem))
        | undef =>
            simp only [objectHuntList] at hr
            obtain ⟨hVs, hNew, hNodup⟩ := ihl acc r hr
            refine ⟨?_, ?_, hNodup⟩
            · intro v hv m hm
              rcases List.mem_cons.mp hv with hv1 | hv1
              · subst hv1; cases hm
              · exact hVs v hv1 m hm
            · intro p hp hnp
              obtain ⟨⟨v', hv', hreach⟩, hcl⟩ := hNew p hp hnp
              exact ⟨⟨v', List.mem_cons.mpr (Or.inr hv'), hreach⟩, hcl⟩
        | vnull =>
            simp only [objectHuntList] at hr
            obtain ⟨hVs, hNew, hNodup⟩ := ihl acc r hr
            refine ⟨?_, ?_, hNodup⟩
            · intro v hv m hm
              rcases List.mem_cons.mp hv with hv1 | hv1
              · subst hv1; cases hm
              · exact hVs v hv1 m hm
            · intro p hp hnp
              obtain ⟨⟨v', hv', hreach⟩, hcl⟩ := hNew p hp hnp
              exact ⟨⟨v', List.mem_cons.mpr (Or.inr hv'), hreach⟩, hcl⟩
        | bool b =>
            simp only [objectHuntList] at hr
            obtain ⟨hVs, hNew, hNodup⟩ := ihl acc r hr
            refine ⟨?_, ?_, hNodup⟩
            · intro v hv m hm
              rcases List.mem_cons.mp hv with hv1 | hv1
              · subst hv1; cases hm
              · exact hVs v hv1 m hm
            · intro p hp hnp
              obtain ⟨⟨v', hv', hreach⟩, hcl⟩ := hNew p hp hnp
              exact ⟨⟨v', List.mem_cons.mpr (Or.inr hv'), hreach⟩, hcl⟩
        | num m2 =>
            simp only [objectHuntList] at hr
            obtain ⟨hVs, hNew, hNodup⟩ := ihl acc r hr
            refine ⟨?_, ?_, hNodup⟩
            · intro v hv m hm
              rcases List.mem_cons.mp hv with hv1 | hv1
              · subst hv1; cases hm
              · exact hVs v hv1 m hm
            · intro p hp hnp
              obtain ⟨⟨v', hv', hreach⟩, hcl⟩ := hNew p hp hnp
              exact ⟨⟨v', List.mem_cons.mpr (Or.inr hv'), hreach⟩, hcl⟩
        | str s =>
            simp only [objectHuntList] at hr
            obtain ⟨hVs, hNew, hNodup⟩ := ihl acc r hr
            refine ⟨?_, ?_, hNodup⟩
            · intro v hv m hm
              rcases List.mem_cons.mp hv with hv1 | hv1
              · subst hv1; cases hm
              · exact hVs v hv1 m hm
            · intro p hp hnp
              obtain ⟨⟨v', hv', hreach⟩, hcl⟩ := hNew p hp hnp
              exact ⟨⟨v', List.mem_cons.mpr (Or.inr hv'), hreach⟩, hcl⟩
        | junk j =>
            simp only [objectHuntList] at hr
            obtain ⟨hVs, hNew, hNodup⟩ := ihl acc r hr
            refine ⟨?_, ?_, hNodup⟩
            · intro v hv m hm
              rcases List.mem_cons.mp hv with hv1 | hv1
              · subst hv1; cases hm
              · exact hVs v hv1 m hm
            · intro p hp hnp
              obtain ⟨⟨v', hv', hreach⟩, hcl⟩ := hNew p hp hnp
              exact ⟨⟨v', List.mem_cons.mpr (Or.inr hv'), hreach⟩, hcl⟩

theorem unvisited_nil_le (h : Heap) : unvisited h [] ≤ h.length := by
  unfold unvisited
  calc ((Finset.range h.length).filter (fun n => n ∉ ([] : List Nat))).card
      ≤ (Finset.range h.length).card := Finset.card_filter_le _ _
    _ = h.length := Finset.card_range _

/-- The total hunt used by `serialize`/`deserialize`: a depth budget of
`h.length` always suffices. -/
def objectHuntRun (h : Heap) (v : GVal) : List Nat :=
  (objectHuntList h h.length [v] []).getD []

theorem objectHuntRun_eq (h : Heap) (v : GVal) :
    objectHuntList h h.length [v] [] = some (objectHuntRun h v) := by
  obtain ⟨r, hr⟩ := objectHuntList_total h h.length [v] [] (unvisited_nil_le h)
  rw [objectHuntRun, hr]
  rfl

end Serializer

/-- C9: `Serializer.objectHunt_` terminates on every object graph —
including graphs with arbitrary reference cycles — with a recursion-depth
budget of `h.length`, and after it returns, each non-primitive value
reachable from the root appears exactly once in the object list: the list
has no duplicates (a value already present is never pushed again nor
re-traversed) and membership coincides exactly with reachability. -/
theorem objectHunt_terminates_exactly_once (h : Heap) (v : GVal) :
    ∃ r, Serializer.objectHunt_ h h.length v [] = some r ∧
      r.Nodup ∧ ∀ n, n ∈ r ↔ Serializer.ReachesV h v n := by
  obtain ⟨r, hr⟩ := Serializer.objectHuntList_total h h.length [v] []
    (Serializer.unvisited_nil_le h)
  obtain ⟨hTargets, hNew, hNodup⟩ := Serializer.objectHuntList_invariant
    h h.length [v] [] r hr
  refine ⟨r, hr, hNodup List.nodup_nil, ?_⟩
  intro n
  constructor
  · intro hn
    obtain ⟨⟨v', hv', hreach⟩, _⟩ := hNew n hn (List.not_mem_nil n)
    have hv'eq : v' = v := by simpa using hv'
    rwa [hv'eq] at hreach
  · have hcl : ∀ p ∈ r, ∀ nd, h.get? p = some nd →
        ∀ m, GVal.ref m ∈ nd.huntChildren → m ∈ r :=
      fun p hp => (hNew p hp (List.not_mem_nil p)).2
    have main : ∀ (w : GVal) (k : Nat), Serializer.ReachesV h w k →
        (∀ m, w.refTarget = some m → m ∈ r) → k ∈ r := by
      intro w k hreach
      induction hreach with
      | base k2 => intro hroot; exact hroot k2 rfl
      | step hp hg hc ih =>
          intro hroot
          exact hcl _ (ih hroot) _ hg _ hc
    intro hreach
    exact main v n hreach (hTargets v (by simp))

/-- First field with the given name of a JSON object (JS property lookup);
`none` models JS `undefined` — for non-objects or absent fields. -/
def JsonValue.getField : JsonValue → String → Option JsonValue
  | .jobj fields, k => (fields.find? (fun p => p.1 = k)).map (·.2)
  | _, _ => none

/-- JS truthiness of a parsed-JSON value. -/
def JsonValue.truthy : JsonValue → Bool
  | .jnull => false
  | .jbool b => b
  | .jnum q => q != 0
  | .jstr s => s != ""
  | .jarr _ => true
  | .jobj _ => true

mutual

/-- JS `ToString` on a parsed-JSON value, as performed by a property
subscript (`objectList[data]`, `functionHash[id]`) or by `RegExp`
argument coercion: `null`, booleans and integers print canonically;
strings are themselves; arrays join their elements with commas (`null`
elements print as the empty string, per `Array.prototype.toString`);
plain objects print `[object Object]`.  The decimal formatting of
non-integer numbers is not reproduced — they print as a placeholder that
is never a canonical array index, which is all the uses here observe
(a non-integer subscript never hits an array entry). -/
def jsToStr : JsonValue → String
  | .jnull => "null"
  | .jbool true => "true"
  | .jbool false => "false"
  | .jnum q =>
      if q.den = 1 then
        if 0 ≤ q.num then Nat.repr q.num.toNat
        else "-" ++ Nat.repr (-q.num).toNat
      else "[number]"
  | .jstr s => s
  | .jarr es => jsToStrList es
  | .jobj _ => "[object Object]"

/-- The comma join of `Array.prototype.toString`. -/
def jsToStrList : List JsonValue → String
  | [] => ""
  | [v] => jsToStrItem v
  | v :: rest => jsToStrItem v ++ "," ++ jsToStrList rest

/-- One joined element: `null` (JS also `undefined`) prints empty. -/
def jsToStrItem : JsonValue → String
  | .jnull => ""
  | v => jsToStr v

end

/-- Is the string a canonical array index (`"0"`, `"17"`, ... — the form
under which a JS array stores its elements)?  `"01"`, `"-1"`, `"1.5"`
and non-numeric strings are ordinary property keys, absent from the
object list. -/
def jsCanonIndex (s : String) : Option Nat :=
  match s.toNat? with
  | some n => if Nat.repr n = s then some n else none
  | none => none

/-- A JSON value used as an array subscript (`objectList[data]`): the
property key is JS `ToString` of the value, and it denotes a list entry
exactly when it is a canonical array index.  Integer numbers take the
direct path; everything else — numeric strings (`{'#': '1'}` finds entry
1), booleans, arrays, objects — goes through the string coercion. -/
def JsonValue.asIndex : JsonValue → Option Nat
  | .jnum q => if q.den = 1 ∧ 0 ≤ q.num then some q.num.toNat else none
  | v => jsCanonIndex (jsToStr v)

namespace Serializer

/-- Host-level errors thrown by serialize/deserialize: these surface to the
host caller, never to guest code. -/
inductive HostError where
  | typeError (msg : String)
  | rangeError (msg : String)
  | referenceError (msg : String)
  | syntaxError (msg : String)
  | plainError (msg : String)
deriving DecidableEq, Repr

/-- Decimal digit accumulation. -/
def decDigitsVal (cs : List Char) : Nat :=
  cs.foldl (fun a c => a * 10 + (c.toNat - 48)) 0

/-- Hex digit value. -/
def hexDigitVal (c : Char) : Nat :=
  if c.isDigit then c.toNat - 48
  else if 'a' ≤ c ∧ c ≤ 'f' then c.toNat - 87
  else c.toNat - 55

/-- Hex digit test. -/
def isHexDigitB (c : Char) : Bool :=
  c.isDigit || ('a' ≤ c && c ≤ 'f') || ('A' ≤ c && c ≤ 'F')

/-- Hex accumulation. -/
def hexDigitsVal (cs : List Char) : Nat :=
  cs.foldl (fun a c => a * 16 + hexDigitVal c) 0

/-- The exponent digits of a `StrDecimalLiteral`. -/
def parseExpDigits (sgn : ℤ) (cs : List Char) : Option ℤ :=
  match cs with
  | [] => none
  | _ =>
      if cs.all (fun c => c.isDigit) then some (sgn * (decDigitsVal cs : ℤ))
      else none

/-- The optional `ExponentPart` of a `StrDecimalLiteral` (must consume the
whole remainder). -/
def parseExpPart : List Char → Option ℤ
  | [] => some 0
  | c :: rest =>
      if c = 'e' ∨ c = 'E' then
        match rest with
        | '+' :: r => parseExpDigits 1 r
        | '-' :: r => parseExpDigits (-1) r
        | r => parseExpDigits 1 r
      else none

/-- An unsigned `StrDecimalLiteral` (ES5.1 9.3.1): digits, an optional
fraction, an optional exponent; at least one digit overall. -/
def parseUnsignedDec (cs : List Char) : Option ℚ :=
  let intD := cs.takeWhile (fun c => c.isDigit)
  let rest1 := cs.dropWhile (fun c => c.isDigit)
  match rest1 with
  | '.' :: rest2 =>
      let fracD := rest2.takeWhile (fun c => c.isDigit)
      let rest3 := rest2.dropWhile (fun c => c.isDigit)
      if intD.isEmpty && fracD.isEmpty then none
      else
        match parseExpPart rest3 with
        | none => none
        | some e =>
            some (((decDigitsVal intD : ℚ) +
              (decDigitsVal fracD : ℚ) / (10 : ℚ) ^ fracD.length) *
              (10 : ℚ) ^ e)
  | _ =>
      if intD.isEmpty then none
      else
        match parseExpPart rest1 with
        | none => none
        | some e => some ((decDigitsVal intD : ℚ) * (10 : ℚ) ^ e)

/-- A signed `StrDecimalLiteral` body (after the optional sign): an
`Infinity` literal or a decimal; a zero result under a minus sign is
`-0`. -/
def parseSignedDec (neg : Bool) (cs : List Char) : JSNum :=
  if cs = "Infinity".toList then (if neg then .negInf else .posInf)
  else
    match parseUnsignedDec cs with
    | none => .nan
    | some q =>
        if q = 0 then (if neg then .negZero else .rat 0)
        else .rat (if neg then -q else q)

/-- ES5.1 9.3.1 `ToNumber` applied to a string: trimmed whitespace, the
empty string is `+0`, a `HexIntegerLiteral` (no sign), else a signed
decimal with optional fraction/exponent or `Infinity`; anything else is
NaN. -/
def parseJsNumber (s : String) : JSNum :=
  let cs := s.trim.toList
  match cs with
  | [] => .rat 0
  | '0' :: 'x' :: r =>
      if r ≠ [] ∧ r.all isHexDigitB = true then .rat (hexDigitsVal r)
      else .nan
  | '0' :: 'X' :: r =>
      if r ≠ [] ∧ r.all isHexDigitB = true then .rat (hexDigitsVal r)
      else .nan
  | '-' :: r => parseSignedDec true r
  | '+' :: r => parseSignedDec false r
  | r => parseSignedDec false r

/-- `Number(x)` as applied by `decodeValue` to a truthy `Number`-tag
payload (JS `ToNumber`): numbers pass through, strings go through the
string-numeric-literal grammar above (the serializer itself emits exactly
'Infinity', '-Infinity', 'NaN' and '-0', kept as explicit first cases),
booleans and `null` convert numerically, arrays convert via their
`ToString` join, and plain objects are NaN (`ToPrimitive` yields
`'[object Object]'`). -/
def jsToNumber : JsonValue → JSNum
  | .jstr "Infinity" => .posInf
  | .jstr "-Infinity" => .negInf
  | .jstr "NaN" => .nan
  | .jstr "-0" => .negZero
  | .jstr s => parseJsNumber s
  | .jnum q => .rat q
  | .jbool true => .rat 1
  | .jbool false => .rat 0
  | .jnull => .rat 0
  | .jarr es => parseJsNumber (jsToStr (.jarr es))
  | .jobj _ => .nan

/-- The type names `getTypesDeserialize_` can construct (serialize.js lines
286–300): `Interpreter.Scope`, the interpreter's guest-object classes, and
the faked-up Acorn AST `Node`. -/
def knownTypes : List String :=
  ["Scope", "PseudoObject", "PseudoFunction", "PseudoArray", "PseudoDate",
   "PseudoRegExp", "PseudoError", "Node"]

/-- `encodeValue` (serialize.js lines 160–183): objects and functions become
`{'#': index}` references into the hunted object list (RangeError when
absent — a junk value is exactly such an unlisted object); `undefined`
becomes the `{'Value': 'undefined'}` tag; `Infinity`, `-Infinity`, NaN and
`-0` become `{'Number': ...}` tags; all other primitives pass through. -/
def encodeValue (objectList : List Nat) : GVal → Except HostError JsonValue
  | .ref n =>
      match objectList.findIdx? (fun m => m = n) with
      | some i => .ok (.jobj [("#", .jnum (i : ℚ))])
      | none => .error (.rangeError "Object not found in table.")
  | .junk _ => .error (.rangeError "Object not found in table.")
  | .undef => .ok (.jobj [("Value", .jstr "undefined")])
  | .num .posInf => .ok (.jobj [("Number", .jstr "Infinity")])
  | .num .negInf => .ok (.jobj [("Number", .jstr "-Infinity")])
  | .num .nan => .ok (.jobj [("Number", .jstr "NaN")])
  | .num .negZero => .ok (.jobj [("Number", .jstr "-0")])
  | .num (.rat q) => .ok (.jnum q)
  | .vnull => .ok .jnull
  | .bool b => .ok (.jbool b)
  | .str s => .ok (.jstr s)

/-- Encode a property list (the `getOwnPropertyNames` loop of serialize.js
lines 250–255). -/
def encodeProps (objectList : List Nat) :
    List (String × GVal) → Except HostError (List (String × JsonValue))
  | [] => .ok []
  | (k, v) :: rest => do
      let jv ← encodeValue objectList v
      let tail ← encodeProps objectList rest
      .ok ((k, jv) :: tail)

/-- Encode a value list (array elements / `Set` values, serialize.js lines
222–232). -/
def encodeVals (objectList : List Nat) :
    List GVal → Except HostError (List JsonValue)
  | [] => .ok []
  | v :: rest => do
      let jv ← encodeValue objectList v
      let tail ← encodeVals objectList rest
      .ok (jv :: tail)

/-- Serialize one hunted node (the per-object loop of `Serializer.serialize`,
serialize.js lines 193–259): the `'#'` debug index, the prototype-derived
`type` tag, then the kind-specific payload.  Functions carry only their
stable string id (a host error if they have none); arrays and Sets carry
their encoded elements as `data` (omitted when empty, the source guarding
with `if (obj.length)` / `if (obj.size)`); Dates carry their `toJSON()`
string; RegExps their source and flags; the property-bag kinds carry their
encoded own properties as `props` when non-empty; a type not in the
serializer's type table is a TypeError. -/
def serializeNode (objectList : List Nat) (i : Nat) (nd : NodeData) :
    Except HostError JsonValue :=
  match nd with
  | .mapObj ps => do
      let eps ← encodeProps objectList ps
      .ok (.jobj ([("#", .jnum (i : ℚ)), ("type", .jstr "Map")] ++
        (if ps.isEmpty then [] else [("props", .jobj eps)])))
  | .plainObj ps => do
      let eps ← encodeProps objectList ps
      .ok (.jobj ([("#", .jnum (i : ℚ)), ("type", .jstr "Object")] ++
        (if ps.isEmpty then [] else [("props", .jobj eps)])))
  | .scopeRefObj ps => do
      let eps ← encodeProps objectList ps
      .ok (.jobj ([("#", .jnum (i : ℚ)), ("type", .jstr "ScopeReference")] ++
        (if ps.isEmpty then [] else [("props", .jobj eps)])))
  | .typedObj ty ps =>
      if ty ∈ knownTypes then do
        let eps ← encodeProps objectList ps
        .ok (.jobj ([("#", .jnum (i : ℚ)), ("type", .jstr ty)] ++
          (if ps.isEmpty then [] else [("props", .jobj eps)])))
      else .error (.typeError "Unknown type: ")
  | .funcObj none => .error (.plainError "Native function has no ID: ")
  | .funcObj (some fid) =>
      .ok (.jobj [("#", .jnum (i : ℚ)), ("type", .jstr "Function"),
        ("id", .jstr fid)])
  | .arrObj es => do
      let data ← encodeVals objectList es
      .ok (.jobj ([("#", .jnum (i : ℚ)), ("type", .jstr "Array")] ++
        (if es.isEmpty then [] else [("data", .jarr data)])))
  | .setObj es => do
      let data ← encodeVals objectList es
      .ok (.jobj ([("#", .jnum (i : ℚ)), ("type", .jstr "Set")] ++
        (if es.isEmpty then [] else [("data", .jarr data)])))
  | .dateObj iso =>
      .ok (.jobj [("#", .jnum (i : ℚ)), ("type", .jstr "Date"),
        ("data", .jstr iso)])
  | .regExpObj source flags =>
      .ok (.jobj [("#", .jnum (i : ℚ)), ("type", .jstr "RegExp"),
        ("source", .jstr source), ("flags", .jstr flags)])

/-- The serializer's indexed loop over the hunted object list.  (A hunted id
with no heap node cannot arise from a real JS object graph — there
`Object.getPrototypeOf` would throw a TypeError, which is what the missing
case models.) -/
def serializeList (h : Heap) (objectList : List Nat) :
    Nat → List Nat → Except HostError (List JsonValue)
  | _, [] => .ok []
  | i, n :: rest =>
      match h.get? n with
      | none => .error (.typeError "Unknown type: ")
      | some nd => do
          let j ← serializeNode objectList i nd
          let tail ← serializeList h objectList (i + 1) rest
          .ok (j :: tail)

/-- `Serializer.serialize` (serialize.js lines 159–261): hunt every
non-primitive reachable from the state stack, then serialize each one. -/
def serialize (intrp : Interp) : Except HostError JsonValue := do
  let objectList := objectHuntRun intrp.heap (.ref intrp.stackId)
  let objs ← serializeList intrp.heap objectList 0 objectList
  .ok (.jarr objs)

/-- The `Value`-tag fallback of `decodeValue` (serialize.js lines 46–53):
a `Value` field strictly equal to the string 'undefined' decodes to
undefined; anything else falls through and the raw JSON value itself is
returned (`junk`). -/
def decodeValueTag (v : JsonValue) : GVal :=
  match v.getField "Value" with
  | some (.jstr s) => if s = "undefined" then .undef else .junk v
  | _ => .junk v

/-- The `Number`-tag step of `decodeValue` (serialize.js lines 42–45): a
truthy `Number` field decodes via `Number(...)`. -/
def decodeNumberTag (v : JsonValue) : GVal :=
  match v.getField "Number" with
  | some d => if d.truthy then .num (jsToNumber d) else decodeValueTag v
  | none => decodeValueTag v

/-- The object branch of `decodeValue` (serialize.js lines 32–41): a truthy
`'#'` field is an object reference, looked up in the rebuilt object list —
a ReferenceError if the lookup yields nothing.  (`{'#': 0}` is NOT treated
as a reference: `0` is falsy, so it falls through to the tag checks and
comes back as junk.) -/
def decodeObjLike (numObjs : Nat) (v : JsonValue) : Except HostError GVal :=
  match v.getField "#" with
  | some d =>
      if d.truthy then
        match d.asIndex with
        | some k =>
            if k < numObjs then .ok (.ref k)
            else .error (.referenceError "Object reference not found: ")
        | none => .error (.referenceError "Object reference not found: ")
      else .ok (decodeNumberTag v)
  | none => .ok (decodeNumberTag v)

/-- `decodeValue` (serialize.js lines 31–54). -/
def decodeValue (numObjs : Nat) : JsonValue → Except HostError GVal
  | .jnull => .ok .vnull
  | .jbool b => .ok (.bool b)
  | .jnum q => .ok (.num (.rat q))
  | .jstr s => .ok (.str s)
  | .jarr es => decodeObjLike numObjs (.jarr es)
  | .jobj fs => decodeObjLike numObjs (.jobj fs)

/-- The deserializer's native-function table (serialize.js lines 64–72):
hunt the target interpreter's own state stack and record each function
object under its stable `id`.  (A function without an id would register
under the JS key 'undefined', unreachable from any string-id lookup; it is
omitted.) -/
def functionHash (intrp : Interp) : List (String × Nat) :=
  (objectHuntRun intrp.heap (.ref intrp.stackId)).foldr
    (fun n acc =>
      match intrp.heap.get? n with
      | some (.funcObj (some fid)) => (fid, n) :: acc
      | _ => acc) []

/-- Hash lookup; later entries overwrite earlier ones in the JS object, so
the scan runs from the end. -/
def hashLookup (entries : List (String × Nat)) (fid : String) : Option Nat :=
  (entries.reverse.find? (fun p => p.1 = fid)).map (·.2)

/-- A field read as a string the way `RegExp(entry['source'],
entry['flags'])` reads it: a present value of any shape is `ToString`-ed
(`RegExp(5)` is the pattern `5`); an absent one takes the constructor's
default (`RegExp(undefined, ...)` behaves as `RegExp('(?:)', '')`). -/
def strFieldD (e : JsonValue) (k dflt : String) : String :=
  match e.getField k with
  | some (.jstr s) => s
  | some d => jsToStr d
  | none => dflt

/-- The `type` tag of an element, when it is a string (any other shape —
a missing field, a non-string tag, or a non-object element, where the JS
subscript would yield `undefined` or throw — takes the unknown-type
path). -/
def typeTagOf (e : JsonValue) : Option String :=
  match e.getField "type" with
  | some (.jstr t) => some t
  | _ => none

/-- The lookup key for a Function element's id: `functionHash[entry['id']]`
subscripts with the `ToString` of the payload; an absent id subscripts
with the key `'undefined'`. -/
def fnKeyOf (e : JsonValue) : String :=
  match e.getField "id" with
  | some (.jstr s) => s
  | some d => jsToStr d
  | none => "undefined"

/-- The stub construction for one Function element (serialize.js lines
91–96): look the id up in the native-function table, RangeError when the
table has no such function. -/
def makeFunctionStub (hash : List (String × Nat)) (e : JsonValue) :
    Except HostError NodeData :=
  match hashLookup hash (fnKeyOf e) with
  | some _ => .ok (.funcObj (some (fnKeyOf e)))
  | none => .error (.rangeError "Function ID not found: ")

/-- The stub construction for one Date element (serialize.js lines
104–109): `new Date(data)` followed by the Invalid-Date check.  Which
present payloads parse as valid dates is the host `Date` constructor's
business, taken here as the parameter `dateOk`; an absent payload is
`new Date(undefined)`, whose time value is `ToNumber(undefined) = NaN`
(ES5.1 15.9.3.2) — invalid for every host.  The node records the
payload's string image (for serializer output — always the `toJSON`
string — that is the string itself). -/
def makeDateStub (dateOk : JsonValue → Bool) (e : JsonValue) :
    Except HostError NodeData :=
  match e.getField "data" with
  | some (.jstr s) =>
      if dateOk (.jstr s) then .ok (.dateObj s)
      else .error (.typeError "Invalid date: ")
  | some d =>
      if dateOk d then .ok (.dateObj (jsToStr d))
      else .error (.typeError "Invalid date: ")
  | none => .error (.typeError "Invalid date: ")

/-- First pass of `Serializer.deserialize` (serialize.js lines 75–122):
create the object stub for one JSON element from its `type` tag (the
source's `switch` is the if-chain below).  Unknown or missing tags are a
TypeError; a `Function` whose id names no native function of the target
interpreter is a RangeError; a `Date` payload the host rejects is a
TypeError ('Invalid date'); a `RegExp` source/flags pair the host's
`RegExp(source, flags)` rejects is a SyntaxError — like the Date
constructor, which patterns and flags the host accepts (`regExpOk`) is a
parameter of the embedding. -/
def makeStub (dateOk : JsonValue → Bool) (regExpOk : String → String → Bool)
    (hash : List (String × Nat)) (e : JsonValue) :
    Except HostError NodeData :=
  match typeTagOf e with
  | none => .error (.typeError "Unknown type: ")
  | some t =>
      if t = "Map" then .ok (.mapObj [])
      else if t = "Object" then .ok (.plainObj [])
      else if t = "ScopeReference" then .ok (.scopeRefObj [])
      else if t = "Function" then makeFunctionStub hash e
      else if t = "Array" then .ok (.arrObj [])
      else if t = "Set" then .ok (.setObj [])
      else if t = "Date" then makeDateStub dateOk e
      else if t = "RegExp" then
        (if regExpOk (strFieldD e "source" "(?:)") (strFieldD e "flags" "") then
          .ok (.regExpObj (strFieldD e "source" "(?:)") (strFieldD e "flags" ""))
        else .error (.syntaxError "Invalid regular expression: "))
      else if t ∈ knownTypes then .ok (.typedObj t [])
      else .error (.typeError "Unknown type: ")

/-- The first-pass loop. -/
def makeStubs (dateOk : JsonValue → Bool) (regExpOk : String → String → Bool)
    (hash : List (String × Nat)) :
    List JsonValue → Except HostError (List NodeData)
  | [] => .ok []
  | e :: rest => do
      let stub ← makeStub dateOk regExpOk hash e
      let tail ← makeStubs dateOk regExpOk hash rest
      .ok (stub :: tail)

/-- Decode a `props` field (serialize.js lines 128–135). -/
def decodeProps (numObjs : Nat) :
    List (String × JsonValue) → Except HostError (List (String × GVal))
  | [] => .ok []
  | (k, jv) :: rest => do
      let v ← decodeValue numObjs jv
      let tail ← decodeProps numObjs rest
      .ok ((k, v) :: tail)

/-- Decode a `data` array (serialize.js lines 136–153). -/
def decodeVals (numObjs : Nat) :
    List JsonValue → Except HostError (List GVal)
  | [] => .ok []
  | jv :: rest => do
      let v ← decodeValue numObjs jv
      let tail ← decodeVals numObjs rest
      .ok (v :: tail)

/-- Index-keyed property list of an array-shaped `props` payload (its
`getOwnPropertyNames` are the element indices followed by `length`). -/
def enumProps : Nat → List GVal → List (String × GVal)
  | _, [] => []
  | i, v :: rest => (Nat.repr i, v) :: enumProps (i + 1) rest

/-- The `props` decoding of one element in the second pass (serialize.js
lines 128–135): the source iterates `getOwnPropertyNames(props)` of any
truthy `props`, decoding each own value.  A JSON object contributes its
fields; a JSON array its elements (index keys, then its numeric
`length`) — both can carry bad references and throw.  Other truthy
payloads (strings, numbers, booleans boxed as primitives) have only
primitive own values, so they decode without error; their expando
assignment onto the stub is outside this node model and not recorded. -/
def propsDec (numObjs : Nat) (e : JsonValue) :
    Except HostError (List (String × GVal)) :=
  match e.getField "props" with
  | some (.jobj fields) => decodeProps numObjs fields
  | some (.jarr items) => do
      let vs ← decodeVals numObjs items
      .ok (enumProps 0 vs ++ [("length", .num (.rat items.length))])
  | _ => .ok []

/-- The `data` decoding of one array/Set element in the second pass
(serialize.js lines 136–153): the source loops `j < data.length` pushing
`decodeValue(data[j])`.  A JSON array contributes its elements.  Other
truthy payloads iterate by their coerced `length`: strings yield their
characters (primitives, never an error), other objects' numeric `length`
is `undefined` unless crafted — a plain object carrying both a numeric
`length` and indexed reference entries is not modelled (and a
non-finite `length` makes the source's loop diverge rather than
throw). -/
def dataDec (numObjs : Nat) (e : JsonValue) : Except HostError (List GVal) :=
  match e.getField "data" with
  | some (.jarr items) => decodeVals numObjs items
  | _ => .ok []

/-- Second pass of `Serializer.deserialize` (serialize.js lines 124–154):
decode the `props` of every element (the source assigns each decoded value
onto whatever stub was built; stubs without a property bag — functions,
dates, regexps, arrays, sets — would receive them as expando properties,
which this node model cannot represent and the serializer never emits, but
the decoding, and so its error behaviour, happens regardless); then push
decoded `data` into array and Set stubs. -/
def populate (numObjs : Nat) (e : JsonValue) (stub : NodeData) :
    Except HostError NodeData := do
  let props ← propsDec numObjs e
  match stub with
  | .mapObj _ => .ok (.mapObj props)
  | .plainObj _ => .ok (.plainObj props)
  | .scopeRefObj _ => .ok (.scopeRefObj props)
  | .typedObj t _ => .ok (.typedObj t props)
  | .arrObj _ => do
      let data ← dataDec numObjs e
      .ok (.arrObj data)
  | .setObj _ => do
      let data ← dataDec numObjs e
      .ok (.setObj data)
  | .funcObj fid => .ok (.funcObj fid)
  | .dateObj s => .ok (.dateObj s)
  | .regExpObj a b => .ok (.regExpObj a b)

/-- The second-pass loop. -/
def populateList (numObjs : Nat) :
    List (JsonValue × NodeData) → Except HostError (List NodeData)
  | [] => .ok []
  | (e, stub) :: rest => do
      let nd ← populate numObjs e stub
      let tail ← populateList numObjs rest
      .ok (nd :: tail)

/-- `Serializer.deserialize` (serialize.js lines 30–157): check the
top-level shape (TypeError if not an array) and that the target
interpreter is initialized (its state stack non-empty — Error otherwise);
collect the target's native functions; build stubs (first pass); populate
them (second pass); and only then re-point the interpreter's `stateStack`
at the first rebuilt object.  The host behaviors the source delegates to
`new Date(...)` and `RegExp(...)` enter as the `dateOk`/`regExpOk`
parameters.  That re-pointing (line 156) is the single
assignment to the interpreter in the source, so any error thrown earlier
leaves `interpreter.stateStack` untouched — modelled by the `Except`
result carrying no state on error. -/
def deserialize (dateOk : JsonValue → Bool)
    (regExpOk : String → String → Bool) (json : JsonValue) (intrp : Interp) :
    Except HostError Interp :=
  match json with
  | .jarr elems =>
      let stackLen :=
        match intrp.heap.get? intrp.stackId with
        | some (.arrObj es) => es.length
        | _ => 0
      if stackLen = 0 then
        .error (.plainError "Interpreter must be initialized prior to deserialization.")
      else do
        let hash := functionHash intrp
        let stubs ← makeStubs dateOk regExpOk hash elems
        let objs ← populateList elems.length (elems.zip stubs)
        .ok { heap := objs, stackId := 0 }
  | _ => .error (.typeError "Top-level JSON is not a list.")

end Serializer

/-- Primitive guest values: not heap references (and not raw-JSON junk). -/
def GVal.isPrim : GVal → Bool
  | .ref _ => false
  | .junk _ => false
  | _ => true

/-- C8: for every primitive guest value `v` — undefined, null, booleans,
strings, and all numbers including NaN, the infinities and `-0` —
`decodeValue (encodeValue v)` is the very same value in the SameValue sense
(the `GVal`/`JSNum` model distinguishes `-0` from `0` and has NaN equal to
itself as a constructor, so plain equality here IS SameValue); in
particular `undefined` is encoded as the `{'Value': 'undefined'}` tag and
the non-finite numbers and `-0` as `{'Number': ...}` tags that decode back
to themselves. -/
theorem decodeValue_encodeValue_primitive (objectList : List Nat)
    (numObjs : Nat) (v : GVal) (hprim : v.isPrim = true) :
    ∃ j, Serializer.encodeValue objectList v = .ok j ∧
      Serializer.decodeValue numObjs j = .ok v ∧
      (v = .undef → j = .jobj [("Value", .jstr "undefined")]) ∧
      (v = .num .nan → j = .jobj [("Number", .jstr "NaN")]) ∧
      (v = .num .posInf → j = .jobj [("Number", .jstr "Infinity")]) ∧
      (v = .num .negInf → j = .jobj [("Number", .jstr "-Infinity")]) ∧
      (v = .num .negZero → j = .jobj [("Number", .jstr "-0")]) := by
  cases v with
  | ref n => simp [GVal.isPrim] at hprim
  | junk j => simp [GVal.isPrim] at hprim
  | undef =>
      exact ⟨_, rfl, rfl, fun _ => rfl, (fun h => by cases h),
        (fun h => by cases h), (fun h => by cases h), (fun h => by cases h)⟩
  | vnull =>
      exact ⟨_, rfl, rfl, (fun h => by cases h), (fun h => by cases h),
        (fun h => by cases h), (fun h => by cases h), (fun h => by cases h)⟩
  | bool b =>
      exact ⟨_, rfl, rfl, (fun h => by cases h), (fun h => by cases h),
        (fun h => by cases h), (fun h => by cases h), (fun h => by cases h)⟩
  | str s =>
      exact ⟨_, rfl, rfl, (fun h => by cases h), (fun h => by cases h),
        (fun h => by cases h), (fun h => by cases h), (fun h => by cases h)⟩
  | num m =>
      cases m with
      | nan =>
          exact ⟨_, rfl, rfl, (fun h => by cases h), fun _ => rfl,
            (fun h => by cases h), (fun h => by cases h), (fun h => by cases h)⟩
      | posInf =>
          exact ⟨_, rfl, rfl, (fun h => by cases h), (fun h => by cases h),
            fun _ => rfl, (fun h => by cases h), (fun h => by cases h)⟩
      | negInf =>
          exact ⟨_, rfl, rfl, (fun h => by cases h), (fun h => by cases h),
            (fun h => by cases h), fun _ => rfl, (fun h => by cases h)⟩
      | negZero =>
          exact ⟨_, rfl, rfl, (fun h => by cases h), (fun h => by cases h),
            (fun h => by cases h), (fun h => by cases h), fun _ => rfl⟩
      | rat q =>
          exact ⟨_, rfl, rfl, (fun h => by cases h), (fun h => by cases h),
            (fun h => by cases h), (fun h => by cases h), (fun h => by cases h)⟩

/-- C8 witness: the round trip at `-0` (with empty object list). -/
theorem decodeValue_encodeValue_primitive_witness :
    (GVal.num .negZero).isPrim = true ∧
    ∃ j, Serializer.encodeValue [] (.num .negZero) = .ok j ∧
      Serializer.decodeValue 0 j = .ok (.num .negZero) ∧
      (GVal.num .negZero = .undef → j = .jobj [("Value", .jstr "undefined")]) ∧
      (GVal.num .negZero = .num .nan → j = .jobj [("Number", .jstr "NaN")]) ∧
      (GVal.num .negZero = .num .posInf →
        j = .jobj [("Number", .jstr "Infinity")]) ∧
      (GVal.num .negZero = .num .negInf →
        j = .jobj [("Number", .jstr "-Infinity")]) ∧
      (GVal.num .negZero = .num .negZero →
        j = .jobj [("Number", .jstr "-0")]) :=
  ⟨rfl, decodeValue_encodeValue_primitive [] 0 (.num .negZero) rfl⟩

namespace Serializer

/-- Is the target interpreter's state stack empty (uninitialized)? -/
def stackEmptyB (intrp : Interp) : Bool :=
  match intrp.heap.get? intrp.stackId with
  | some (.arrObj es) => es.isEmpty
  | _ => true

end Serializer

namespace Serializer

theorem eBind_ok {α β : Type} (a : α) (f : α → Except HostError β) :
    (Except.ok a >>= f) = f a := rfl

theorem eBind_error {α β : Type} (e : HostError) (f : α → Except HostError β) :
    ((Except.error e : Except HostError α) >>= f) = .error e := rfl

end Serializer

namespace Dumper

/-- The `Do` enum (part_008 lines 87–134): how much to do (or how much
has been done) about a binding. -/
def DoUNSTARTED : Nat := 0

/-- `Do.PRUNE` (part_008). -/
def DoPRUNE : Nat := 1

/-- `Do.SKIP` (part_008). -/
def DoSKIP : Nat := 2

/-- `Do.DECL` (part_008). -/
def DoDECL : Nat := 3

/-- `Do.SET` (part_008). -/
def DoSET : Nat := 4

/-- `Do.RECURSE` (part_008). -/
def DoRECURSE : Nat := 5

/-- The identity of the `Info` record `dumpBinding` resolves for a
selector: the `ScopeInfo` of the dumper's current scope (`this.scope`,
assigned once in the constructor, part_008 line 272) for a length-1
selector, or the `ObjectInfo` of the object the selector's prefix
evaluates to (keyed by object identity) otherwise. -/
inductive InfoKey where
  | scopeKey : InfoKey
  | objKey (objId : Nat) : InfoKey
deriving DecidableEq

/-- The union of all interned infos' `done` maps: `(info, name) ↦ status`.
An absent entry reads as `Do.UNSTARTED` (`info.done[name] || Do.UNSTARTED`,
part_008 line 348). -/
abbrev DoneMap : Type := List (InfoKey × String × Nat)

/-- Read a binding's recorded status. -/
def getDone (d : DoneMap) (k : InfoKey) (name : String) : Nat :=
  match d.find? (fun e => e.1 = k && e.2.1 = name) with
  | some e => e.2.2
  | none => DoUNSTARTED

/-- Record a binding's status (`info.done[name] = ...`, part_008 line
367): overwrite the entry in place when present, append it otherwise. -/
def setDone : DoneMap → InfoKey → String → Nat → DoneMap
  | [], k, name, v => [(k, name, v)]
  | e :: rest, k, name, v =>
      if e.1 = k && e.2.1 = name then (k, name, v) :: rest
      else e :: setDone rest k name v

/-- The dumper's mutable state during `dumpBinding`: the `done` maps,
plus everything else `toExpr` may touch (object `ref`s, recursively
dumped bindings...), abstracted as `aux`. -/
structure DumperState (A : Type) where
  done : DoneMap
  aux : A

/-- The interpreter-dependent context of a `Dumper`.  The interpreter
itself is not part of this repository's sources, so the reads
`dumpBinding` makes of it are abstract functions; they are functions of
the selector alone because `dumpBinding` never writes the interpreter and
`this.scope` is fixed (part_008 line 272).
`resolveObj sel` is `getValueForSelector` on the selector minus its last
component combined with the `instanceof intrp.Object` check (part_008
lines 339–344): the object's identity when that value is an interpreter
object, `none` when the lookup throws or yields a primitive.
`selectorExpr` is the pure `Selector.prototype.toExpr`.
`toExprAt sel st` is `this.toExpr(this.getValueForSelector(sel), sel)`
(part_008 lines 358–359): it may read and write any dumper state and may
throw (`none`). -/
structure DumpEnv (A : Type) where
  resolveObj : List String → Option Nat
  selectorExpr : List String → String
  toExprAt : List String → DumperState A → Option (String × DumperState A)

/-- Which `Info` record and binding name `dumpBinding` works on
(part_008 lines 331–346). -/
def resolveBinding {A : Type} (env : DumpEnv A) :
    List String → Except String (InfoKey × String)
  | [] => .error "Cannot bind nothing"
  | [s0] => .ok (.scopeKey, s0)
  | s0 :: s1 :: rest =>
      match env.resolveObj ((s0 :: s1 :: rest).dropLast) with
      | some objId => .ok (.objKey objId, (s0 :: s1 :: rest).getLast (by simp))
      | none => .error "Cannot set properties of primitive"

/-- `doDecl` of part_008 line 349, as a function of `todo` and `done`. -/
def doDeclB (todo done : Nat) : Bool :=
  DoDECL ≤ todo && done < DoDECL

/-- `doInit` of part_008 line 350, as a function of `todo` and `done`. -/
def doInitB (todo done : Nat) : Bool :=
  DoSET ≤ todo && done < DoSET

/-- `Dumper.prototype.dumpBinding` (part_008 lines 326–369).  Resolve the
info/name; read `done`; compute `doDecl = (todo ≥ DECL ∧ done < DECL)` and
`doInit = (todo ≥ SET ∧ done < SET)`; assemble the output pieces (`var `
for a declared variable; the selector expression if declaring or
initialising; ` = ` and the value expression if initialising, else
` = undefined` for a declared property; `;\n` when anything was pushed —
which happens exactly when `doDecl ∨ doInit`); finally record
`info.done[name] = max(done, min(todo, Do.SET))`, overwriting whatever
`toExpr` may have recorded meanwhile, exactly as the source's assignment
on line 367 runs after the `toExpr` call on line 359. -/
def dumpBinding {A : Type} (env : DumpEnv A) (selector : List String)
    (todo : Nat) (st : DumperState A) :
    Except String (String × DumperState A) :=
  match resolveBinding env selector with
  | .error m => .error m
  | .ok (key, name) =>
      let isVar : Bool := selector.length = 1
      let done := getDone st.done key name
      if doInitB todo done then
        match env.toExprAt selector st with
        | none => .error "toExpr threw"
        | some (valExpr, st1) =>
            .ok ((if doDeclB todo done && isVar then "var " else "") ++
                  env.selectorExpr selector ++ " = " ++ valExpr ++ ";\n",
                 { st1 with
                   done := setDone st1.done key name (max done (min todo DoSET)) })
      else
        .ok ((if doDeclB todo done then
                (if isVar then "var " else "") ++ env.selectorExpr selector ++
                  (if isVar then "" else " = undefined") ++ ";\n"
              else ""),
             { st with
               done := setDone st.done key name (max done (min todo DoSET)) })

end Dumper

namespace Dumper

theorem getDone_setDone (d : DoneMap) (k : InfoKey) (name : String) (v : Nat) :
    getDone (setDone d k name v) k name = v := by
  induction d with
  | nil => simp [setDone, getDone, List.find?]
  | cons e rest ih =>
      by_cases hp : (e.1 = k && e.2.1 = name) = true
      · rw [setDone, if_pos hp]
        unfold getDone
        rw [List.find?_cons_of_pos _ (by simp)]
      · rw [setDone, if_neg hp]
        unfold getDone at ih ⊢
        rw [List.find?_cons_of_neg _ (by simpa using hp)]
        exact ih

theorem doDeclB_stable (done todo todo2 : Nat) (h : todo2 ≤ todo) :
    doDeclB todo2 (max done (min todo DoSET)) = false := by
  rw [Bool.eq_false_iff]
  intro hc
  rw [doDeclB, Bool.and_eq_true] at hc
  simp only [decide_eq_true_eq, DoDECL, DoSET] at hc
  omega

theorem doInitB_stable (done todo todo2 : Nat) (h : todo2 ≤ todo) :
    doInitB todo2 (max done (min todo DoSET)) = false := by
  rw [Bool.eq_false_iff]
  intro hc
  rw [doInitB, Bool.and_eq_true] at hc
  simp only [decide_eq_true_eq, DoSET] at hc
  omega

end Dumper

/-- C10: `Dumper.prototype.dumpBinding` never lowers a binding's recorded
dump status: after a successful `dumpBinding selector todo` the recorded
status of the binding (the entry of the resolved info's `done` map under
the binding's name) equals `max(previous, min(todo, Do.SET))` — whatever
`toExpr` did meanwhile, since the source's final assignment (part_008
line 367) runs after the `toExpr` call; consequently an immediately
repeated call with the same selector and any `todo2 ≤ todo` returns the
empty string and leaves the recorded status unchanged. -/
theorem dumpBinding_monotone_idempotent {A : Type} (env : Dumper.DumpEnv A)
    (selector : List String) (todo todo2 : Nat)
    (st st1 : Dumper.DumperState A) (out : String)
    (key : Dumper.InfoKey) (name : String)
    (hkey : Dumper.resolveBinding env selector = .ok (key, name))
    (h : Dumper.dumpBinding env selector todo st = .ok (out, st1))
    (hle : todo2 ≤ todo) :
    Dumper.getDone st1.done key name =
      max (Dumper.getDone st.done key name) (min todo Dumper.DoSET) ∧
    ∃ st2, Dumper.dumpBinding env selector todo2 st1 = .ok ("", st2) ∧
      Dumper.getDone st2.done key name = Dumper.getDone st1.done key name := by
  have hd1 : Dumper.getDone st1.done key name =
      max (Dumper.getDone st.done key name) (min todo Dumper.DoSET) := by
    unfold Dumper.dumpBinding at h
    rw [hkey] at h
    dsimp only at h
    cases hInit : Dumper.doInitB todo (Dumper.getDone st.done key name) with
    | false =>
        rw [hInit] at h
        simp only [Bool.false_eq_true, if_false, Except.ok.injEq, Prod.mk.injEq] at h
        rw [← h.2]
        exact Dumper.getDone_setDone _ _ _ _
    | true =>
        rw [hInit] at h
        simp only [if_true] at h
        cases hTE : env.toExprAt selector st with
        | none => rw [hTE] at h; cases h
        | some p =>
            rw [hTE] at h
            cases p with
            | mk valExpr stM =>
                simp only [Except.ok.injEq, Prod.mk.injEq] at h
                rw [← h.2]
                exact Dumper.getDone_setDone _ _ _ _
  have hInit2 : Dumper.doInitB todo2 (Dumper.getDone st1.done key name) = false := by
    rw [hd1]; exact Dumper.doInitB_stable _ _ _ hle
  have hDecl2 : Dumper.doDeclB todo2 (Dumper.getDone st1.done key name) = false := by
    rw [hd1]; exact Dumper.doDeclB_stable _ _ _ hle
  refine ⟨hd1, ⟨Dumper.setDone st1.done key name
      (max (Dumper.getDone st1.done key name) (min todo2 Dumper.DoSET)),
      st1.aux⟩, ?_, ?_⟩
  · unfold Dumper.dumpBinding
    rw [hkey]
    dsimp only
    rw [hInit2, hDecl2]
    simp only [Bool.false_eq_true, if_false]
  · rw [Dumper.getDone_setDone, hd1]
    simp only [Dumper.DoSET]
    omega

/-- A concrete dumper context for exercising `dumpBinding`: every selector
prefix resolves to object 0, selector expressions join the parts with
dots, and every value's expression is `0` with no state change. -/
def wEnv : Dumper.DumpEnv Unit :=
  { resolveObj := fun _ => some 0
    selectorExpr := fun sel => String.intercalate "." sel
    toExprAt := fun _ st => some ("0", st) }

/-- A fresh dumper state: nothing recorded yet. -/
def wSt : Dumper.DumperState Unit := ⟨[], ()⟩

/-- The state after dumping the variable `obj` to `Do.SET`. -/
def wSt1 : Dumper.DumperState Unit := ⟨[(.scopeKey, "obj", 4)], ()⟩

/-- C10 witness: dumping the variable `obj` at `Do.SET` from a fresh state
emits `var obj = 0;\n` and records status 4; the repeated call at
`Do.DECL` emits nothing and leaves the status at 4. -/
theorem dumpBinding_monotone_idempotent_witness :
    Dumper.resolveBinding wEnv ["obj"] = .ok (.scopeKey, "obj") ∧
    Dumper.dumpBinding wEnv ["obj"] 4 wSt = .ok ("var obj = 0;\n", wSt1) ∧
    (3 : Nat) ≤ 4 ∧
    (Dumper.getDone wSt1.done .scopeKey "obj" =
      max (Dumper.getDone wSt.done .scopeKey "obj") (min 4 Dumper.DoSET) ∧
     ∃ st2, Dumper.dumpBinding wEnv ["obj"] 3 wSt1 = .ok ("", st2) ∧
       Dumper.getDone st2.done .scopeKey "obj" =
         Dumper.getDone wSt1.done .scopeKey "obj") :=
  ⟨rfl, rfl, by decide,
    dumpBinding_monotone_idempotent wEnv ["obj"] 4 3 wSt wSt1 "var obj = 0;\n"
      .scopeKey "obj" rfl rfl (by decide)⟩

/-- The values of a node that `Serializer.serialize` encodes (and
`deserialize` decodes back): own property values for the property-bag
kinds, elements for arrays, and — unlike the hunt, which only follows own
properties — the internal elements of a `Set`. -/
def NodeData.serialVals : NodeData → List GVal
  | .mapObj ps => ps.map (·.2)
  | .plainObj ps => ps.map (·.2)
  | .scopeRefObj ps => ps.map (·.2)
  | .typedObj _ ps => ps.map (·.2)
  | .funcObj _ => []
  | .arrObj es => es
  | .setObj es => es
  | .dateObj _ => []
  | .regExpObj _ _ => []

namespace Serializer

/-- The node-id relabeling a serialize/deserialize round trip performs:
node `n` of the original heap becomes its index in the hunted object
list.  (A reference outside the list cannot survive serialization —
`encodeValue` throws — so the fallback is arbitrary.) -/
def mapVal (ol : List Nat) : GVal → GVal
  | .ref n =>
      match ol.findIdx? (fun m => m = n) with
      | some i => .ref i
      | none => .junk .jnull
  | v => v

/-- The relabeling applied to every value a node carries. -/
def mapNode (ol : List Nat) : NodeData → NodeData
  | .mapObj ps => .mapObj (ps.map (fun p => (p.1, mapVal ol p.2)))
  | .plainObj ps => .plainObj (ps.map (fun p => (p.1, mapVal ol p.2)))
  | .scopeRefObj ps => .scopeRefObj (ps.map (fun p => (p.1, mapVal ol p.2)))
  | .typedObj ty ps => .typedObj ty (ps.map (fun p => (p.1, mapVal ol p.2)))
  | .funcObj fid => .funcObj fid
  | .arrObj es => .arrObj (es.map (mapVal ol))
  | .setObj es => .setObj (es.map (mapVal ol))
  | .dateObj iso => .dateObj iso
  | .regExpObj source flags => .regExpObj source flags

end Serializer


namespace Serializer

theorem findIdx?_some_spec {α : Type} (p : α → Bool) :
    ∀ (l : List α) (i j : Nat), List.findIdx? p l i = some j →
      ∃ k, j = i + k ∧ k < l.length ∧ ∃ a, l.get? k = some a ∧ p a = true := by
  intro l
  induction l with
  | nil => intro i j h; rw [List.findIdx?_nil] at h; cases h
  | cons x xs ih =>
      intro i j h
      rw [List.findIdx?_cons] at h
      by_cases hp : p x = true
      · rw [if_pos hp] at h
        cases h
        exact ⟨0, by omega, by simp, x, rfl, hp⟩
      · rw [if_neg hp] at h
        obtain ⟨k, hk, hlen, a, ha, hpa⟩ := ih (i + 1) j h
        refine ⟨k + 1, by omega, by simp; omega, a, ?_, hpa⟩
        exact ha

theorem findIdx?_of_mem {l : List Nat} {n : Nat} :
    ∀ (i : Nat), n ∈ l → ∃ j, List.findIdx? (fun m => m = n) l i = some j := by
  induction l with
  | nil => intro i h; cases h
  | cons x xs ih =>
      intro i h
      rw [List.findIdx?_cons]
      by_cases hx : (decide (x = n)) = true
      · exact ⟨i, by rw [if_pos hx]⟩
      · have hm : n ∈ xs := by
          cases List.mem_cons.mp h with
          | inl he => exact absurd (by simp [he]) hx
          | inr ht => exact ht
        obtain ⟨j, hj⟩ := ih (i + 1) hm
        exact ⟨j, by rw [if_neg hx]; exact hj⟩

theorem findIdx?_eq_get {l : List Nat} {n j : Nat}
    (h : List.findIdx? (fun m => m = n) l 0 = some j) :
    j < l.length ∧ l.get? j = some n := by
  obtain ⟨k, hk, hlen, a, ha, hpa⟩ := findIdx?_some_spec _ l 0 j h
  have hk0 : j = k := by omega
  subst hk0
  have han : a = n := by simpa using hpa
  subst han
  exact ⟨hlen, ha⟩

/-- A reference that `encodeValue` accepted is in the object list. -/
theorem encodeValue_ref_mem {ol : List Nat} {v : GVal} {jv : JsonValue}
    (h : encodeValue ol v = .ok jv) :
    ∀ m, v.refTarget = some m → m ∈ ol := by
  intro m hm
  cases v with
  | ref n =>
      have hn : n = m := by simpa [GVal.refTarget] using hm
      subst hn
      simp only [encodeValue] at h
      cases hf : List.findIdx? (fun x => x = n) ol 0 with
      | none => rw [hf] at h; cases h
      | some j =>
          obtain ⟨_, hget⟩ := findIdx?_eq_get hf
          exact List.get?_mem hget
  | undef => cases hm
  | vnull => cases hm
  | bool b => cases hm
  | num q => cases hm
  | str s => cases hm
  | junk j => cases hm

theorem decode_ref_obj (numObjs i : Nat) (hi : i ≠ 0) (hlt : i < numObjs) :
    decodeValue numObjs (.jobj [("#", .jnum (i : ℚ))]) = .ok (.ref i) := by
  have htr : (JsonValue.jnum (i : ℚ)).truthy = true := by
    simp only [JsonValue.truthy, bne_iff_ne, ne_eq, decide_eq_true_eq]
    exact_mod_cast hi
  have hax : (JsonValue.jnum (i : ℚ)).asIndex = some i := by
    simp [JsonValue.asIndex, Rat.den_natCast, Rat.num_natCast]
  show decodeObjLike numObjs (.jobj [("#", .jnum (i : ℚ))]) = .ok (.ref i)
  unfold decodeObjLike
  have hgf : (JsonValue.jobj [("#", .jnum (i : ℚ))]).getField "#" =
      some (.jnum (i : ℚ)) := rfl
  rw [hgf]
  dsimp only
  rw [if_pos htr]
  rw [hax]
  dsimp only
  rw [if_pos hlt]

/-- The value-level round trip: a value `encodeValue` accepted decodes —
in a table of the same length — to the relabeled value, provided it does
not reference the node at index 0 of the object list (such a reference
would be emitted as the falsy `{'#': 0}` and come back as junk). -/
theorem decodeValue_mapVal {ol : List Nat} {v : GVal} {jv : JsonValue}
    (henc : encodeValue ol v = .ok jv)
    (hnz : ∀ m, v.refTarget = some m →
      List.findIdx? (fun x => x = m) ol 0 ≠ some 0) :
    decodeValue ol.length jv = .ok (mapVal ol v) := by
  cases v with
  | ref n =>
      simp only [encodeValue] at henc
      cases hf : List.findIdx? (fun x => x = n) ol 0 with
      | none => rw [hf] at henc; cases henc
      | some i =>
          rw [hf] at henc
          cases henc
          have hi : i ≠ 0 := by
            intro h0
            exact hnz n rfl (by rw [hf, h0])
          obtain ⟨hlt, _⟩ := findIdx?_eq_get hf
          have hm : mapVal ol (.ref n) = .ref i := by
            simp only [mapVal]
            rw [hf]
          rw [hm]
          exact decode_ref_obj ol.length i hi hlt
  | undef => cases henc; rfl
  | vnull => cases henc; rfl
  | bool b => cases henc; rfl
  | str s => cases henc; rfl
  | junk j => cases henc
  | num q =>
      cases q with
      | nan => cases henc; rfl
      | posInf => cases henc; rfl
      | negInf => cases henc; rfl
      | negZero => cases henc; rfl
      | rat x => cases henc; rfl

end Serializer

namespace Serializer

/-- Property lists survive the round trip, relabeled. -/
theorem decodeProps_mapVal {ol : List Nat} :
    ∀ (ps : List (String × GVal)) (eps : List (String × JsonValue)),
      encodeProps ol ps = .ok eps →
      (∀ v, v ∈ ps.map (fun p => p.2) → ∀ m, v.refTarget = some m →
        List.findIdx? (fun x => x = m) ol 0 ≠ some 0) →
      decodeProps ol.length eps =
        .ok (ps.map (fun p => (p.1, mapVal ol p.2))) := by
  intro ps
  induction ps with
  | nil =>
      intro eps h hnz
      cases h
      rfl
  | cons p rest ih =>
      intro eps h hnz
      cases hv : encodeValue ol p.2 with
      | error err =>
          rw [show encodeProps ol (p :: rest) =
            encodeProps ol ((p.1, p.2) :: rest) by rw [Prod.mk.eta]] at h
          simp only [encodeProps, hv, eBind_error] at h
          cases h
      | ok jv =>
          rw [show encodeProps ol (p :: rest) =
            encodeProps ol ((p.1, p.2) :: rest) by rw [Prod.mk.eta]] at h
          simp only [encodeProps, hv, eBind_ok] at h
          cases ht : encodeProps ol rest with
          | error err2 =>
              rw [ht] at h
              simp only [eBind_error] at h
              cases h
          | ok tail =>
              rw [ht] at h
              simp only [eBind_ok, Except.ok.injEq] at h
              subst h
              have hd := decodeValue_mapVal hv
                (fun m hm => hnz p.2 (by simp) m hm)
              have htail := ih tail ht
                (fun v hvm m hm => hnz v (by simp; right; simpa using hvm) m hm)
              simp only [decodeProps, hd, eBind_ok, htail, Except.ok.injEq]
              rfl

/-- Element lists survive the round trip, relabeled. -/
theorem decodeVals_mapVal {ol : List Nat} :
    ∀ (es : List GVal) (data : List JsonValue),
      encodeVals ol es = .ok data →
      (∀ v, v ∈ es → ∀ m, v.refTarget = some m →
        List.findIdx? (fun x => x = m) ol 0 ≠ some 0) →
      decodeVals ol.length data = .ok (es.map (mapVal ol)) := by
  intro es
  induction es with
  | nil =>
      intro data h hnz
      cases h
      rfl
  | cons v rest ih =>
      intro data h hnz
      cases hv : encodeValue ol v with
      | error err =>
          simp only [encodeVals, hv, eBind_error] at h
          cases h
      | ok jv =>
          simp only [encodeVals, hv, eBind_ok] at h
          cases ht : encodeVals ol rest with
          | error err2 =>
              rw [ht] at h
              simp only [eBind_error] at h
              cases h
          | ok tail =>
              rw [ht] at h
              simp only [eBind_ok, Except.ok.injEq] at h
              subst h
              have hd := decodeValue_mapVal hv
                (fun m hm => hnz v (by simp) m hm)
              have htail := ih tail ht
                (fun w hw m hm => hnz w (by simp [hw]) m hm)
              simp only [decodeVals, hd, eBind_ok, htail, Except.ok.injEq]
              rfl

end Serializer

namespace Serializer

/-- The node-level round trip: a node `serializeNode` accepted gets its
stub rebuilt by the first deserialization pass and — populated by the
second pass — comes back as the same node with every reference relabeled
to its object-list index. -/
theorem serializeNode_roundtrip {ol : List Nat} (dOk : JsonValue → Bool)
    (rOk : String → String → Bool) (hash : List (String × Nat))
    (i : Nat) (nd : NodeData) (e : JsonValue)
    (hser : serializeNode ol i nd = .ok e)
    (hfn : ∀ fid, nd = .funcObj (some fid) → (hashLookup hash fid).isSome = true)
    (hdate : ∀ iso, nd = .dateObj iso → dOk (.jstr iso) = true)
    (hre : ∀ src flags, nd = .regExpObj src flags → rOk src flags = true)
    (hnz : ∀ v, v ∈ nd.serialVals → ∀ m, v.refTarget = some m →
      List.findIdx? (fun x => x = m) ol 0 ≠ some 0) :
    ∃ stub, makeStub dOk rOk hash e = .ok stub ∧
      populate ol.length e stub = .ok (mapNode ol nd) := by
  cases nd with
  | mapObj ps =>
      cases hep : encodeProps ol ps with
      | error err =>
          simp only [serializeNode, hep, eBind_error] at hser
          cases hser
      | ok eps =>
          simp only [serializeNode, hep, eBind_ok, Except.ok.injEq] at hser
          subst hser
          cases ps with
          | nil =>
              cases hep
              exact ⟨.mapObj [], rfl, rfl⟩
          | cons p0 prest =>
              refine ⟨.mapObj [], rfl, ?_⟩
              have hdp := decodeProps_mapVal (p0 :: prest) eps hep
                (fun v hv m hm =>
                  hnz v (by simpa [NodeData.serialVals] using hv) m hm)
              change (decodeProps ol.length eps >>= _) = _
              rw [hdp, eBind_ok]
              rfl
  | plainObj ps =>
      cases hep : encodeProps ol ps with
      | error err =>
          simp only [serializeNode, hep, eBind_error] at hser
          cases hser
      | ok eps =>
          simp only [serializeNode, hep, eBind_ok, Except.ok.injEq] at hser
          subst hser
          cases ps with
          | nil =>
              cases hep
              exact ⟨.plainObj [], rfl, rfl⟩
          | cons p0 prest =>
              refine ⟨.plainObj [], rfl, ?_⟩
              have hdp := decodeProps_mapVal (p0 :: prest) eps hep
                (fun v hv m hm =>
                  hnz v (by simpa [NodeData.serialVals] using hv) m hm)
              change (decodeProps ol.length eps >>= _) = _
              rw [hdp, eBind_ok]
              rfl
  | scopeRefObj ps =>
      cases hep : encodeProps ol ps with
      | error err =>
          simp only [serializeNode, hep, eBind_error] at hser
          cases hser
      | ok eps =>
          simp only [serializeNode, hep, eBind_ok, Except.ok.injEq] at hser
          subst hser
          cases ps with
          | nil =>
              cases hep
              exact ⟨.scopeRefObj [], rfl, rfl⟩
          | cons p0 prest =>
              refine ⟨.scopeRefObj [], rfl, ?_⟩
              have hdp := decodeProps_mapVal (p0 :: prest) eps hep
                (fun v hv m hm =>
                  hnz v (by simpa [NodeData.serialVals] using hv) m hm)
              change (decodeProps ol.length eps >>= _) = _
              rw [hdp, eBind_ok]
              rfl
  | typedObj ty ps =>
      by_cases hty : ty ∈ knownTypes
      · cases hep : encodeProps ol ps with
        | error err =>
            simp only [serializeNode, if_pos hty, hep, eBind_error] at hser
            cases hser
        | ok eps =>
            simp only [serializeNode, if_pos hty, hep, eBind_ok,
              Except.ok.injEq] at hser
            subst hser
            simp only [knownTypes, List.mem_cons, List.not_mem_nil,
              or_false] at hty
            rcases hty with rfl | rfl | rfl | rfl | rfl | rfl | rfl | rfl <;>
              (cases ps with
               | nil =>
                   cases hep
                   exact ⟨_, rfl, rfl⟩
               | cons p0 prest =>
                   refine ⟨_, rfl, ?_⟩
                   have hdp := decodeProps_mapVal (p0 :: prest) eps hep
                     (fun v hv m hm =>
                       hnz v (by simpa [NodeData.serialVals] using hv) m hm)
                   change (decodeProps ol.length eps >>= _) = _
                   rw [hdp, eBind_ok]
                   rfl)
      · simp only [serializeNode, if_neg hty] at hser
        cases hser
  | funcObj fid =>
      cases fid with
      | none =>
          simp only [serializeNode] at hser
          cases hser
      | some f =>
          simp only [serializeNode, Except.ok.injEq] at hser
          subst hser
          obtain ⟨nid, hl⟩ := Option.isSome_iff_exists.mp (hfn f rfl)
          refine ⟨.funcObj (some f), ?_, rfl⟩
          calc makeStub dOk rOk hash
                (JsonValue.jobj [("#", JsonValue.jnum (i : ℚ)),
                  ("type", JsonValue.jstr "Function"), ("id", JsonValue.jstr f)])
              = (match hashLookup hash f with
                 | some _ => Except.ok (NodeData.funcObj (some f))
                 | none => Except.error
                     (HostError.rangeError "Function ID not found: ")) := rfl
            _ = Except.ok (NodeData.funcObj (some f)) := by rw [hl]
  | arrObj es =>
      cases hev : encodeVals ol es with
      | error err =>
          simp only [serializeNode, hev, eBind_error] at hser
          cases hser
      | ok data =>
          simp only [serializeNode, hev, eBind_ok, Except.ok.injEq] at hser
          subst hser
          cases es with
          | nil =>
              cases hev
              exact ⟨.arrObj [], rfl, rfl⟩
          | cons v0 vrest =>
              refine ⟨.arrObj [], rfl, ?_⟩
              have hdv := decodeVals_mapVal (v0 :: vrest) data hev
                (fun v hv m hm =>
                  hnz v (by simpa [NodeData.serialVals] using hv) m hm)
              change (decodeVals ol.length data >>= _) = _
              rw [hdv, eBind_ok]
              rfl
  | setObj es =>
      cases hev : encodeVals ol es with
      | error err =>
          simp only [serializeNode, hev, eBind_error] at hser
          cases hser
      | ok data =>
          simp only [serializeNode, hev, eBind_ok, Except.ok.injEq] at hser
          subst hser
          cases es with
          | nil =>
              cases hev
              exact ⟨.setObj [], rfl, rfl⟩
          | cons v0 vrest =>
              refine ⟨.setObj [], rfl, ?_⟩
              have hdv := decodeVals_mapVal (v0 :: vrest) data hev
                (fun v hv m hm =>
                  hnz v (by simpa [NodeData.serialVals] using hv) m hm)
              change (decodeVals ol.length data >>= _) = _
              rw [hdv, eBind_ok]
              rfl
  | dateObj iso =>
      simp only [serializeNode, Except.ok.injEq] at hser
      subst hser
      refine ⟨.dateObj iso, ?_, rfl⟩
      calc makeStub dOk rOk hash
            (JsonValue.jobj [("#", JsonValue.jnum (i : ℚ)),
              ("type", JsonValue.jstr "Date"), ("data", JsonValue.jstr iso)])
          = (if dOk (.jstr iso) = true then
               Except.ok (NodeData.dateObj iso)
             else Except.error (HostError.typeError "Invalid date: ")) := rfl
        _ = Except.ok (NodeData.dateObj iso) := by rw [hdate iso rfl]; rfl
  | regExpObj source flags =>
      simp only [serializeNode, Except.ok.injEq] at hser
      subst hser
      refine ⟨.regExpObj source flags, ?_, rfl⟩
      calc makeStub dOk rOk hash
            (JsonValue.jobj [("#", JsonValue.jnum (i : ℚ)),
              ("type", JsonValue.jstr "RegExp"),
              ("source", JsonValue.jstr source),
              ("flags", JsonValue.jstr flags)])
          = (if rOk source flags = true then
               Except.ok (NodeData.regExpObj source flags)
             else Except.error
               (HostError.syntaxError "Invalid regular expression: ")) := rfl
        _ = Except.ok (NodeData.regExpObj source flags) := by
              rw [hre source flags rfl]; rfl

end Serializer

namespace Serializer

theorem encodeProps_each {ol : List Nat} :
    ∀ (ps : List (String × GVal)) (eps : List (String × JsonValue)),
      encodeProps ol ps = .ok eps →
      ∀ v, v ∈ ps.map (fun p => p.2) → ∃ jv, encodeValue ol v = .ok jv := by
  intro ps
  induction ps with
  | nil => intro eps _ v hv; cases hv
  | cons p rest ih =>
      intro eps h v hv
      cases hv' : encodeValue ol p.2 with
      | error err =>
          rw [show encodeProps ol (p :: rest) =
            encodeProps ol ((p.1, p.2) :: rest) by rw [Prod.mk.eta]] at h
          simp only [encodeProps, hv', eBind_error] at h
          cases h
      | ok jv =>
          rw [show encodeProps ol (p :: rest) =
            encodeProps ol ((p.1, p.2) :: rest) by rw [Prod.mk.eta]] at h
          simp only [encodeProps, hv', eBind_ok] at h
          cases ht : encodeProps ol rest with
          | error err2 =>
              rw [ht] at h
              simp only [eBind_error] at h
              cases h
          | ok tail =>
              rw [List.map_cons] at hv
              rcases List.mem_cons.mp hv with he | he
              · exact ⟨jv, by rw [he]; exact hv'⟩
              · exact ih tail ht v he

theorem encodeVals_each {ol : List Nat} :
    ∀ (es : List GVal) (data : List JsonValue),
      encodeVals ol es = .ok data →
      ∀ v, v ∈ es → ∃ jv, encodeValue ol v = .ok jv := by
  intro es
  induction es with
  | nil => intro data _ v hv; cases hv
  | cons w rest ih =>
      intro data h v hv
      cases hv' : encodeValue ol w with
      | error err =>
          simp only [encodeVals, hv', eBind_error] at h
          cases h
      | ok jv =>
          simp only [encodeVals, hv', eBind_ok] at h
          cases ht : encodeVals ol rest with
          | error err2 =>
              rw [ht] at h
              simp only [eBind_error] at h
              cases h
          | ok tail =>
              rcases List.mem_cons.mp hv with he | he
              · exact ⟨jv, by rw [he]; exact hv'⟩
              · exact ih tail ht v he

/-- Every value a serialized node carries was accepted by `encodeValue`,
so all its references are in the object list. -/
theorem serializeNode_vals_ok {ol : List Nat} {i : Nat} {nd : NodeData}
    {e : JsonValue} (hser : serializeNode ol i nd = .ok e) :
    ∀ v, v ∈ nd.serialVals → ∀ m, v.refTarget = some m → m ∈ ol := by
  intro v hv m hm
  cases nd with
  | mapObj ps =>
      cases hep : encodeProps ol ps with
      | error err => simp only [serializeNode, hep, eBind_error] at hser; cases hser
      | ok eps =>
          obtain ⟨jv, hjv⟩ := encodeProps_each ps eps hep v
            (by simpa [NodeData.serialVals] using hv)
          exact encodeValue_ref_mem hjv m hm
  | plainObj ps =>
      cases hep : encodeProps ol ps with
      | error err => simp only [serializeNode, hep, eBind_error] at hser; cases hser
      | ok eps =>
          obtain ⟨jv, hjv⟩ := encodeProps_each ps eps hep v
            (by simpa [NodeData.serialVals] using hv)
          exact encodeValue_ref_mem hjv m hm
  | scopeRefObj ps =>
      cases hep : encodeProps ol ps with
      | error err => simp only [serializeNode, hep, eBind_error] at hser; cases hser
      | ok eps =>
          obtain ⟨jv, hjv⟩ := encodeProps_each ps eps hep v
            (by simpa [NodeData.serialVals] using hv)
          exact encodeValue_ref_mem hjv m hm
  | typedObj ty ps =>
      by_cases hty : ty ∈ knownTypes
      · cases hep : encodeProps ol ps with
        | error err =>
            simp only [serializeNode, if_pos hty, hep, eBind_error] at hser
            cases hser
        | ok eps =>
            obtain ⟨jv, hjv⟩ := encodeProps_each ps eps hep v
              (by simpa [NodeData.serialVals] using hv)
            exact encodeValue_ref_mem hjv m hm
      · simp only [serializeNode, if_neg hty] at hser
        cases hser
  | funcObj fid => simp [NodeData.serialVals] at hv
  | arrObj es =>
      cases hev : encodeVals ol es with
      | error err => simp only [serializeNode, hev, eBind_error] at hser; cases hser
      | ok data =>
          obtain ⟨jv, hjv⟩ := encodeVals_each es data hev v
            (by simpa [NodeData.serialVals] using hv)
          exact encodeValue_ref_mem hjv m hm
  | setObj es =>
      cases hev : encodeVals ol es with
      | error err => simp only [serializeNode, hev, eBind_error] at hser; cases hser
      | ok data =>
          obtain ⟨jv, hjv⟩ := encodeVals_each es data hev v
            (by simpa [NodeData.serialVals] using hv)
          exact encodeValue_ref_mem hjv m hm
  | dateObj iso => simp [NodeData.serialVals] at hv
  | regExpObj source flags => simp [NodeData.serialVals] at hv

end Serializer

namespace Serializer

/-- The list-level round trip: every node the serializer's per-object loop
accepted is rebuilt — stub pass then populate pass — as its relabeling,
position by position. -/
theorem roundtripList {h : Heap} {ol : List Nat} (dOk : JsonValue → Bool)
    (rOk : String → String → Bool) (hash : List (String × Nat))
    (hfnH : ∀ nd, nd ∈ h → ∀ fid, nd = NodeData.funcObj (some fid) →
      (hashLookup hash fid).isSome = true)
    (hdateH : ∀ nd, nd ∈ h → ∀ iso, nd = NodeData.dateObj iso →
      dOk (.jstr iso) = true)
    (hreH : ∀ nd, nd ∈ h → ∀ src flags, nd = NodeData.regExpObj src flags →
      rOk src flags = true)
    (hnzH : ∀ nd, nd ∈ h → ∀ v, v ∈ nd.serialVals → ∀ m,
      v.refTarget = some m → List.findIdx? (fun x => x = m) ol 0 ≠ some 0) :
    ∀ (ns : List Nat) (i : Nat) (objs : List JsonValue),
      serializeList h ol i ns = .ok objs →
      objs.length = ns.length ∧
      ∃ stubs H2,
        makeStubs dOk rOk hash objs = .ok stubs ∧
        populateList ol.length (objs.zip stubs) = .ok H2 ∧
        H2.length = ns.length ∧
        (∀ k n, ns.get? k = some n →
          ∃ nd, h.get? n = some nd ∧ H2.get? k = some (mapNode ol nd) ∧
            ∀ v, v ∈ nd.serialVals → ∀ m, v.refTarget = some m → m ∈ ol) := by
  intro ns
  induction ns with
  | nil =>
      intro i objs hsl
      cases hsl
      exact ⟨rfl, [], [], rfl, rfl, rfl, fun k n hk => by cases hk⟩
  | cons n rest ih =>
      intro i objs hsl
      cases hg : h.get? n with
      | none =>
          simp only [serializeList, hg] at hsl
          cases hsl
      | some nd =>
          cases hsn : serializeNode ol i nd with
          | error err =>
              simp only [serializeList, hg, hsn, eBind_error] at hsl
              cases hsl
          | ok e =>
              cases hrest : serializeList h ol (i + 1) rest with
              | error err2 =>
                  simp only [serializeList, hg, hsn, eBind_ok, hrest,
                    eBind_error] at hsl
                  cases hsl
              | ok tail =>
                  simp only [serializeList, hg, hsn, eBind_ok, hrest,
                    eBind_ok, Except.ok.injEq] at hsl
                  subst hsl
                  have hmem : nd ∈ h := List.get?_mem hg
                  obtain ⟨stub, hms, hpop⟩ := serializeNode_roundtrip dOk
                    rOk hash i nd e hsn (hfnH nd hmem) (hdateH nd hmem)
                    (hreH nd hmem) (hnzH nd hmem)
                  obtain ⟨hlen0, stubs, H2, hms2, hpl2, hlen, hpt⟩ :=
                    ih (i + 1) tail hrest
                  refine ⟨by simp [hlen0], stub :: stubs,
                    mapNode ol nd :: H2, ?_, ?_, by simp [hlen], ?_⟩
                  · simp only [makeStubs, hms, eBind_ok, hms2, eBind_ok]
                  · simp only [List.zip_cons_cons, populateList, hpop,
                      eBind_ok]
                    rw [show List.zipWith Prod.mk tail stubs =
                      tail.zip stubs from rfl, hpl2, eBind_ok]
                  · intro k m hk
                    cases k with
                    | zero =>
                        cases hk
                        exact ⟨nd, hg, rfl, serializeNode_vals_ok hsn⟩
                    | succ k2 => exact hpt k2 m hk

end Serializer


namespace Serializer

/-- The hunt starting at the state stack lists the stack node first. -/
theorem objectHuntRun_head (h : Heap) (s : Nat) :
    ∃ t, objectHuntRun h (.ref s) = s :: t := by
  obtain ⟨r, hr⟩ : ∃ r, objectHuntRun h (.ref s) = r := ⟨_, rfl⟩
  have heq := objectHuntRun_eq h (.ref s)
  rw [hr] at heq
  simp only [objectHuntList] at heq
  rw [if_neg (List.not_mem_nil s)] at heq
  cases hg : h.get? s with
  | none =>
      rw [hg] at heq
      simp only [objectHuntList, List.nil_append] at heq
      exact ⟨[], by rw [hr]; exact (Option.some.inj heq).symm⟩
  | some nd =>
      rw [hg] at heq
      have hlt : s < h.length := by
        by_contra hge
        rw [List.get?_eq_none.mpr (by omega)] at hg
        cases hg
      cases hL : h.length with
      | zero => omega
      | succ f =>
          rw [hL] at heq
          dsimp only at heq
          cases hin : objectHuntList h f nd.huntChildren ([] ++ [s]) with
          | none =>
              rw [hin] at heq
              cases heq
          | some acc2 =>
              rw [hin] at heq
              simp only [objectHuntList] at heq
              obtain ⟨⟨t, ht⟩, _⟩ := objectHuntList_grows h f
                nd.huntChildren ([] ++ [s]) acc2 hin
              have hacc : acc2 = r := Option.some.inj heq
              refine ⟨t, ?_⟩
              rw [hr, ← hacc, ht]
              rfl

end Serializer

namespace Serializer

theorem stackLen_ne_zero {i2 : Interp} (hstack : stackEmptyB i2 = false) :
    (match i2.heap.get? i2.stackId with
     | some (.arrObj es) => es.length
     | _ => 0) ≠ 0 := by
  intro h0
  cases hg2 : i2.heap.get? i2.stackId with
  | none =>
      have he : stackEmptyB i2 = true := by unfold stackEmptyB; rw [hg2]
      rw [he] at hstack
      cases hstack
  | some nd2 =>
      rw [hg2] at h0
      cases nd2 with
      | arrObj es =>
          have he : stackEmptyB i2 = es.isEmpty := by
            unfold stackEmptyB; rw [hg2]
          rw [he] at hstack
          have h1 : es.length = 0 := h0
          rw [List.length_eq_zero] at h1
          subst h1
          simp at hstack
      | mapObj ps =>
          have he : stackEmptyB i2 = true := by unfold stackEmptyB; rw [hg2]
          rw [he] at hstack
          cases hstack
      | plainObj ps =>
          have he : stackEmptyB i2 = true := by unfold stackEmptyB; rw [hg2]
          rw [he] at hstack
          cases hstack
      | scopeRefObj ps =>
          have he : stackEmptyB i2 = true := by unfold stackEmptyB; rw [hg2]
          rw [he] at hstack
          cases hstack
      | typedObj ty ps =>
          have he : stackEmptyB i2 = true := by unfold stackEmptyB; rw [hg2]
          rw [he] at hstack
          cases hstack
      | funcObj fid =>
          have he : stackEmptyB i2 = true := by unfold stackEmptyB; rw [hg2]
          rw [he] at hstack
          cases hstack
      | setObj es =>
          have he : stackEmptyB i2 = true := by unfold stackEmptyB; rw [hg2]
          rw [he] at hstack
          cases hstack
      | dateObj iso =>
          have he : stackEmptyB i2 = true := by unfold stackEmptyB; rw [hg2]
          rw [he] at hstack
          cases hstack
      | regExpObj a b =>
          have he : stackEmptyB i2 = true := by unfold stackEmptyB; rw [hg2]
          rw [he] at hstack
          cases hstack

end Serializer

/-- Spec-modelled (§2 heap model, §3 value semantics — `interpreter.js`
is not part of this repository's sources): two machine states are the
same up to a renaming of heap addresses.  The witness of the renaming is
a duplicate-free list `ol` of addresses of the first heap: address `n`
is renamed to its index in `ol` (`Nodup` makes this injective, so
reference identity — what guest `===` observes — is preserved in both
directions); the root renames to the new root; and the node at each
renamed address is the original node with every value it carries renamed
(`mapNode`, which keeps primitives — NaN, `-0`, strings — verbatim and
renames references), with every reference of every listed node again in
`ol`, so the renaming covers everything reachable.  A deterministic
guest program with no wall-clock or native I/O dependence cannot
distinguish equivalent states: heap addresses themselves are
unobservable, only the (renaming-preserved) structure, primitives and
reference identity are.  Running such a program to completion is
therefore invariant under `StateEquiv` — that invariance is how "the
same completion value" is rendered below. -/
def StateEquiv (ol : List Nat) (h1 : Heap) (r1 : Nat) (h2 : Heap)
    (r2 : Nat) : Prop :=
  ol.Nodup ∧ r1 ∈ ol ∧ Serializer.mapVal ol (.ref r1) = .ref r2 ∧
  h2.length = ol.length ∧
  ∀ k n, ol.get? k = some n →
    ∃ nd, h1.get? n = some nd ∧ h2.get? k = some (Serializer.mapNode ol nd) ∧
      ∀ v, v ∈ nd.serialVals → ∀ m, v.refTarget = some m → m ∈ ol

/-- C1: the round trip.  Serializing an interpreter whose serialization
succeeds (`Serializer.serialize`, from the source) and deserializing the
JSON into a freshly initialized interpreter (`Serializer.deserialize`,
from the source) succeeds and rebuilds the original machine state up to
a renaming of heap addresses: the deserialized state is `StateEquiv` to
the original, with the hunted object list as the renaming — every
reachable node reappears at its object-list index with all its values
relabeled by `mapNode`, sharing and cycles included.  Consequently
running to completion yields the same completion value: the run of a
deterministic guest program (no wall-clock or native I/O dependence) is
a function of the machine state that is invariant under address
renaming — `interpreter.js` is not under `src/`, so that run enters as
any function `runF` invariant under `StateEquiv`, and for every such
function the two values agree.  Hypotheses: the target interpreter is
initialized (non-empty state stack); its native-function table covers
every function id of the source heap and its `Date`/`RegExp`
constructors accept what the source heap's nodes carry (a fresh
interpreter of the same build does: date payloads are `toJSON` output
and regexp sources/flags come from live `RegExp` objects); and no
serialized value references the state-stack node itself (guest values
never can — the falsy `{'#': 0}` encoding of such a reference would not
survive, see the C8/C7 analyses). -/
theorem serialize_roundtrip_run (dateOk : JsonValue → Bool)
    (regExpOk : String → String → Bool) (i1 i2 : Interp) (json : JsonValue)
    (hser : Serializer.serialize i1 = .ok json)
    (hstack : Serializer.stackEmptyB i2 = false)
    (hfn : ∀ nd, nd ∈ i1.heap → ∀ fid, nd = NodeData.funcObj (some fid) →
      (Serializer.hashLookup (Serializer.functionHash i2) fid).isSome = true)
    (hdate : ∀ nd, nd ∈ i1.heap → ∀ iso, nd = NodeData.dateObj iso →
      dateOk (.jstr iso) = true)
    (hregexp : ∀ nd, nd ∈ i1.heap → ∀ src flags,
      nd = NodeData.regExpObj src flags → regExpOk src flags = true)
    (hnoroot : ∀ nd, nd ∈ i1.heap → ∀ v, v ∈ nd.serialVals →
      v.refTarget ≠ some i1.stackId) :
    ∃ i3, Serializer.deserialize dateOk regExpOk json i2 = .ok i3 ∧
      i3.stackId = 0 ∧
      StateEquiv (Serializer.objectHuntRun i1.heap (.ref i1.stackId))
        i1.heap i1.stackId i3.heap i3.stackId ∧
      ∀ (T : Type) (runF : Heap → Nat → T),
        (∀ ol h1 r1 h2 r2, StateEquiv ol h1 r1 h2 r2 →
          runF h2 r2 = runF h1 r1) →
        runF i3.heap i3.stackId = runF i1.heap i1.stackId := by
  simp only [Serializer.serialize] at hser
  cases hsl : Serializer.serializeList i1.heap
      (Serializer.objectHuntRun i1.heap (.ref i1.stackId)) 0
      (Serializer.objectHuntRun i1.heap (.ref i1.stackId)) with
  | error err =>
      rw [hsl] at hser
      simp only [Serializer.eBind_error] at hser
      cases hser
  | ok objs =>
      rw [hsl] at hser
      simp only [Serializer.eBind_ok, Except.ok.injEq] at hser
      subst hser
      obtain ⟨t, hhead⟩ := Serializer.objectHuntRun_head i1.heap i1.stackId
      have hol0 : (Serializer.objectHuntRun i1.heap (.ref i1.stackId)).get? 0 =
          some i1.stackId := by rw [hhead]; rfl
      have hnodup : (Serializer.objectHuntRun i1.heap (.ref i1.stackId)).Nodup := by
        obtain ⟨_, _, hnd⟩ := Serializer.objectHuntList_invariant i1.heap
          i1.heap.length [.ref i1.stackId] []
          (Serializer.objectHuntRun i1.heap (.ref i1.stackId))
          (Serializer.objectHuntRun_eq i1.heap (.ref i1.stackId))
        exact hnd List.nodup_nil
      have hnzH : ∀ nd, nd ∈ i1.heap → ∀ v, v ∈ nd.serialVals → ∀ m,
          v.refTarget = some m →
          List.findIdx? (fun x => x = m)
            (Serializer.objectHuntRun i1.heap (.ref i1.stackId)) 0 ≠
            some 0 := by
        intro nd hnd v hv m hm hidx
        obtain ⟨_, hget⟩ := Serializer.findIdx?_eq_get hidx
        rw [hol0] at hget
        have hms : m = i1.stackId := (Option.some.inj hget).symm
        exact hnoroot nd hnd v hv (by rw [hm, hms])
      obtain ⟨hlen0, stubs, H2, hms, hpl, hH2len, hpt⟩ :=
        Serializer.roundtripList dateOk regExpOk (Serializer.functionHash i2)
          hfn hdate hregexp hnzH
          (Serializer.objectHuntRun i1.heap (.ref i1.stackId)) 0 objs hsl
      have hdeser : Serializer.deserialize dateOk regExpOk (.jarr objs) i2 =
          .ok ⟨H2, 0⟩ := by
        simp only [Serializer.deserialize]
        rw [if_neg (Serializer.stackLen_ne_zero hstack)]
        rw [hms, Serializer.eBind_ok, hlen0, hpl, Serializer.eBind_ok]
      have hmem : i1.stackId ∈
          Serializer.objectHuntRun i1.heap (.ref i1.stackId) :=
        List.get?_mem hol0
      have hmv : Serializer.mapVal
          (Serializer.objectHuntRun i1.heap (.ref i1.stackId))
          (.ref i1.stackId) = .ref 0 := by
        simp only [Serializer.mapVal]
        rw [hhead, List.findIdx?_cons, if_pos (by simp)]
      have hequiv : StateEquiv
          (Serializer.objectHuntRun i1.heap (.ref i1.stackId))
          i1.heap i1.stackId H2 0 :=
        ⟨hnodup, hmem, hmv, hH2len, hpt⟩
      exact ⟨⟨H2, 0⟩, hdeser, rfl, hequiv,
        fun T runF hinv => hinv _ _ _ _ _ hequiv⟩

/-- A little interpreter heap for exercising the round trip: the state
stack (node 0) is a one-element array referencing a plain object (node 1)
with one boolean property. -/
def wH : Heap := [.arrObj [.ref 1], .plainObj [("x", .bool true)]]

/-- The interpreter owning `wH`, its state stack at node 0. -/
def wI1 : Interp := ⟨wH, 0⟩

/-- What `Serializer.serialize wI1` emits. -/
def wJson : JsonValue := .jarr
  [.jobj [("#", .jnum 0), ("type", .jstr "Array"),
          ("data", .jarr [.jobj [("#", .jnum 1)]])],
   .jobj [("#", .jnum 1), ("type", .jstr "Object"),
          ("props", .jobj [("x", .jbool true)])]]

/-- A freshly initialized target interpreter: a non-empty state stack and
nothing else. -/
def wI2 : Interp := ⟨[.arrObj [.undef]], 0⟩

/-- C1 witness: the round trip at a concrete two-node interpreter state,
under a host model accepting every Date payload and RegExp. -/
theorem serialize_roundtrip_run_witness :
    Serializer.serialize wI1 = .ok wJson ∧
    Serializer.stackEmptyB wI2 = false ∧
    (∀ nd, nd ∈ wI1.heap → ∀ fid, nd = NodeData.funcObj (some fid) →
      (Serializer.hashLookup (Serializer.functionHash wI2) fid).isSome = true) ∧
    (∀ nd, nd ∈ wI1.heap → ∀ iso, nd = NodeData.dateObj iso →
      (fun _ => true : JsonValue → Bool) (.jstr iso) = true) ∧
    (∀ nd, nd ∈ wI1.heap → ∀ src flags, nd = NodeData.regExpObj src flags →
      (fun _ _ => true : String → String → Bool) src flags = true) ∧
    (∀ nd, nd ∈ wI1.heap → ∀ v, v ∈ nd.serialVals →
      v.refTarget ≠ some wI1.stackId) ∧
    ∃ i3, Serializer.deserialize (fun _ => true) (fun _ _ => true)
        wJson wI2 = .ok i3 ∧
      i3.stackId = 0 ∧
      StateEquiv (Serializer.objectHuntRun wI1.heap (.ref wI1.stackId))
        wI1.heap wI1.stackId i3.heap i3.stackId ∧
      ∀ (T : Type) (runF : Heap → Nat → T),
        (∀ ol h1 r1 h2 r2, StateEquiv ol h1 r1 h2 r2 →
          runF h2 r2 = runF h1 r1) →
        runF i3.heap i3.stackId = runF wI1.heap wI1.stackId := by
  have hser : Serializer.serialize wI1 = .ok wJson := by
    simp [Serializer.serialize, Serializer.objectHuntRun,
      Serializer.objectHuntList, Serializer.serializeList,
      Serializer.serializeNode, Serializer.encodeVals, Serializer.encodeProps,
      Serializer.encodeValue, wI1, wH, wJson, NodeData.huntChildren,
      Serializer.eBind_ok]
  have hfnW : ∀ nd, nd ∈ wI1.heap → ∀ fid, nd = NodeData.funcObj (some fid) →
      (Serializer.hashLookup (Serializer.functionHash wI2) fid).isSome = true := by
    intro nd hnd fid hf
    simp only [wI1, wH, List.mem_cons, List.not_mem_nil, or_false] at hnd
    rcases hnd with rfl | rfl <;> cases hf
  have hdateW : ∀ nd, nd ∈ wI1.heap → ∀ iso, nd = NodeData.dateObj iso →
      (fun _ => true : JsonValue → Bool) (.jstr iso) = true :=
    fun _ _ _ _ => rfl
  have hreW : ∀ nd, nd ∈ wI1.heap → ∀ src flags,
      nd = NodeData.regExpObj src flags →
      (fun _ _ => true : String → String → Bool) src flags = true :=
    fun _ _ _ _ _ => rfl
  have hnoW : ∀ nd, nd ∈ wI1.heap → ∀ v, v ∈ nd.serialVals →
      v.refTarget ≠ some wI1.stackId := by
    intro nd hnd v hv
    simp only [wI1, wH, List.mem_cons, List.not_mem_nil, or_false] at hnd
    rcases hnd with rfl | rfl
    · simp only [NodeData.serialVals, List.mem_cons, List.not_mem_nil,
        or_false] at hv
      subst hv
      simp [GVal.refTarget, wI1]
    · simp only [NodeData.serialVals, List.map_cons, List.map_nil,
        List.mem_cons, List.not_mem_nil, or_false] at hv
      subst hv
      simp [GVal.refTarget]
  exact ⟨hser, rfl, hfnW, hdateW, hreW, hnoW,
    serialize_roundtrip_run (fun _ => true) (fun _ _ => true) wI1 wI2 wJson
      hser rfl hfnW hdateW hreW hnoW⟩
